import Mathlib

/-!
# Receipt processor

A shallow embedding of `main.go`: the receipt scoring rules and the two HTTP
handlers over the receipt store, together with the parts of the Go runtime and
standard library they call: `float64` arithmetic, `strconv.ParseFloat`,
`strings.TrimSpace`, `strings.TrimPrefix`, `strings.TrimSuffix`,
`unicode.IsLetter` / `unicode.IsDigit`, `time.Parse` for the two layouts the
program uses, and the JSON encoding of the `Response` struct.

Conventions of the embedding.

* A Go `string` is a Lean `String` (a sequence of Unicode scalar values); every
  string the program scores comes out of `json.Unmarshal`, which only produces
  valid UTF-8. `len` is the length in UTF-8 bytes, as in Go.
* Go `int` is the 64-bit two's complement integer of the usual targets: an
  `Int` that is wrapped with `wrapInt64` wherever the source adds to it.
* `float64` is IEEE 754 binary64 with round-to-nearest-even, modelled exactly
  (see `F64`).
* A handler is a function of the store and the request; requests are handled
  one at a time.
-/

set_option autoImplicit false

/-! ## Go `int` -/

/-- Two's complement wrap-around of a mathematical integer into the range of a
64-bit Go `int`. -/
def wrapInt64 (x : Int) : Int := (x + 2 ^ 63) % 2 ^ 64 - 2 ^ 63

/-- The values a 64-bit Go `int` can hold. -/
def inInt64 (x : Int) : Prop := -(2 ^ 63) ≤ x ∧ x < 2 ^ 63

instance (x : Int) : Decidable (inInt64 x) := by unfold inInt64; infer_instance

/-! ## `float64`

Every finite binary64 value is an integer multiple of `2^-1074`, so a finite
value is stored as that integer. The two zeros are identified: the program
never divides, prints or inspects the sign of a float, so `-0` and `+0` are
indistinguishable to it. -/

/-- A `float64` value: `fin n` is the finite value `n * 2^-1074`. -/
inductive F64 where
  | fin (n : Int)
  | inf (neg : Bool)
  | nan
deriving DecidableEq

/-- Nearest natural number to `a / b`, ties to the even one. -/
def roundHalfEven (a b : Nat) : Nat :=
  let f := a / b
  let r := a % b
  if 2 * r < b then f
  else if b < 2 * r then f + 1
  else if f % 2 = 0 then f else f + 1

/-- The largest `k` with `q * 2^k ≤ P`, searched upward from the second
argument `k`; the first argument bounds the number of steps. -/
def binaryExponent (P q : Nat) : Nat → Nat → Nat
  | 0, k => k
  | fuel + 1, k => if q * 2 ^ (k + 1) ≤ P then binaryExponent P q fuel (k + 1) else k

/-- The binary64 value nearest to the non-negative rational `p / q` (ties to
even, exponent range unbounded above), in units of `2^-1074`. With
`P = p * 2^1074`, `e` is `floor (log2 (P / q))` when `P ≥ q`, and the result is
a 53-bit significand times `2^t`; `t = 0` is the subnormal range. -/
def roundScaled (p q : Nat) : Nat :=
  let P := p * 2 ^ 1074
  let e := binaryExponent P q P 0
  let t := e - 52
  roundHalfEven P (q * 2 ^ t) * 2 ^ t

namespace F64

/-- The unit in which finite values are stored: `1.0` is `fin one`. -/
def one : Int := 2 ^ 1074

/-- IEEE rounding of the rational `± p / q` to binary64: the nearest value,
and an infinity when that is `2^1024` or more. -/
def round (neg : Bool) (p q : Nat) : F64 :=
  let n := roundScaled p q
  if 2 ^ 2098 ≤ n then inf neg else fin (if neg then -(n : Int) else n)

/-- Go's `x * y` on `float64`. -/
def mul : F64 → F64 → F64
  | nan, _ => nan
  | _, nan => nan
  | inf a, inf b => inf (a != b)
  | inf a, fin n => if n = 0 then nan else inf (a != decide (n < 0))
  | fin n, inf b => if n = 0 then nan else inf (decide (n < 0) != b)
  | fin a, fin b =>
    round (decide (a < 0) != decide (b < 0)) (a.natAbs * b.natAbs) (2 ^ 2148)

/-- Go's `float64(k)` for an `int` k: the nearest binary64 value. -/
def ofInt (k : Int) : F64 := round (decide (k < 0)) k.natAbs 1

/-- The integer part of a float (truncation toward zero), when the float is
finite and that integer fits a 64-bit `int`. -/
def truncInt? : F64 → Option Int
  | fin n => if inInt64 (Int.tdiv n one) then some (Int.tdiv n one) else none
  | _ => none

/-- Go's `int(f)`. The language leaves the result implementation-dependent
when `f` is NaN, infinite or out of range; the value here is the one of
amd64, whose conversion instruction then yields the smallest `int`. -/
def toInt (f : F64) : Int := (truncInt? f).getD (-(2 ^ 63))

/-- Go's `x == y` on `float64`: NaN equals nothing. -/
def eq : F64 → F64 → Bool
  | fin a, fin b => a == b
  | inf a, inf b => a == b
  | _, _ => false

/-- The constant `100` as a `float64`. -/
def c100 : F64 := fin (100 * one)

/-- The constant `0.02` as a `float64`: `5764607523034235 * 2^-58`. -/
def c0_02 : F64 := fin (5764607523034235 * 2 ^ 1016)

end F64

/-- Go's `math.Ceil`: the least integer not below `x`; infinities and NaN are
returned unchanged. -/
def math.Ceil : F64 → F64
  | F64.fin n => F64.fin (-((-n) / F64.one) * F64.one)
  | x => x

/-! ## `strconv.ParseFloat`

`ParseFloat(s, 64)` reads a decimal or hexadecimal floating-point literal, or
one of the special words, and returns the correctly rounded binary64 value.
The scanner below follows `special`, `readFloat` and `underscoreOK` of
`strconv/atof.go` and `strconv/atoi.go` byte by byte; the conversion of the
scanned digits uses the exact value of the literal, which is what Go's
conversion paths compute. -/

namespace strconv

/-- The error kinds of a `*NumError` returned by `ParseFloat`. -/
inductive NumError where
  | ErrSyntax
  | ErrRange
deriving DecidableEq

/-- Go's `lower(c) = c | ('x' - 'X')`, as a character code. -/
def lower (c : Char) : Nat := c.toNat ||| 0x20

/-- Whether `c` is one of the bytes `'0'` to `'9'`. -/
def isDecimalDigit (c : Char) : Bool := decide ('0' ≤ c ∧ c ≤ '9')

/-- Length of the common prefix of `s` and the lower-case word `word`, with
ASCII upper-case letters of `s` folded to lower case. -/
def commonPrefixLenIgnoreCase : List Char → List Char → Nat
  | c :: s, w :: word =>
    let c := if 'A' ≤ c ∧ c ≤ 'Z' then c.toNat + 32 else c.toNat
    if c = w.toNat then commonPrefixLenIgnoreCase s word + 1 else 0
  | _, _ => 0

/-- The `'i', 'I'` case of `special`: `s` starts with `inf` or `infinity`;
`nsign` is the number of sign bytes already consumed. -/
def specialInf (neg : Bool) (nsign : Nat) (s : List Char) : Option (F64 × Nat) :=
  let n := commonPrefixLenIgnoreCase s "infinity".toList
  let n := if 3 < n ∧ n < 8 then 3 else n
  if n = 3 ∨ n = 8 then some (F64.inf neg, nsign + n) else none

/-- Go's `special`: an optionally signed infinity or an unsigned NaN at the
start of `s`, with the number of bytes it takes. -/
def special (s : List Char) : Option (F64 × Nat) :=
  match s with
  | [] => none
  | c :: t =>
    if c = '+' ∨ c = '-' then specialInf (c = '-') 1 t
    else if c = 'i' ∨ c = 'I' then specialInf false 0 s
    else if c = 'n' ∨ c = 'N' then
      if commonPrefixLenIgnoreCase s "nan".toList = 3 then some (F64.nan, 3) else none
    else none

/-- What the digit loop of `readFloat` has seen so far. `mantissa` holds every
significant digit: Go keeps the first 19 (16 in base 16) with a `trunc` flag
and reads the others again on its slow path, to the same rounded result. -/
structure DigitState where
  mantissa : Nat
  nd : Int
  dp : Int
  sawdot : Bool
  sawdigits : Bool
  underscores : Bool

/-- The digit loop of `readFloat`: digits, at most one point, underscores;
returns the state and the unread rest. -/
def readDigits (hex : Bool) : DigitState → List Char → DigitState × List Char
  | st, [] => (st, [])
  | st, c :: cs =>
    if c = '_' then readDigits hex { st with underscores := true } cs
    else if c = '.' then
      if st.sawdot then (st, c :: cs)
      else readDigits hex { st with sawdot := true, dp := st.nd } cs
    else if isDecimalDigit c then
      if c = '0' ∧ st.nd = 0 then
        readDigits hex { st with sawdigits := true, dp := st.dp - 1 } cs
      else
        readDigits hex { st with
          sawdigits := true, nd := st.nd + 1,
          mantissa := st.mantissa * (if hex then 16 else 10) + (c.toNat - 48) } cs
    else if hex ∧ 97 ≤ lower c ∧ lower c ≤ 102 then
      readDigits hex { st with
        sawdigits := true, nd := st.nd + 1,
        mantissa := st.mantissa * 16 + (lower c - 97 + 10) } cs
    else (st, c :: cs)

/-- The exponent digit loop of `readFloat`: digits and underscores; the
exponent stops growing once it has reached 10000. -/
def readExpDigits : Nat → Bool → List Char → Nat × Bool × List Char
  | e, us, [] => (e, us, [])
  | e, us, c :: cs =>
    if c = '_' then readExpDigits e true cs
    else if isDecimalDigit c then
      readExpDigits (if e < 10000 then e * 10 + (c.toNat - 48) else e) us cs
    else (e, us, c :: cs)

/-- The scan of `underscoreOK` after the sign and base prefix; `saw` is the
class of the last byte: `'0'` digit, `'_'` underscore, `'!'` other, `'^'`
start. -/
def underscoreScan (hex : Bool) : Char → List Char → Bool
  | saw, [] => saw != '_'
  | saw, c :: cs =>
    if isDecimalDigit c ∨ (hex ∧ 97 ≤ lower c ∧ lower c ≤ 102) then underscoreScan hex '0' cs
    else if c = '_' then
      if saw != '0' then false else underscoreScan hex '_' cs
    else if saw = '_' then false
    else underscoreScan hex '!' cs

/-- Go's `underscoreOK`: underscores only between digits, or between a base
prefix and a digit. -/
def underscoreOK (s : List Char) : Bool :=
  let s := match s with
    | c :: t => if c = '-' ∨ c = '+' then t else s
    | [] => s
  match s with
  | z :: x :: t =>
    if z = '0' ∧ (lower x = 98 ∨ lower x = 111 ∨ lower x = 120) then
      underscoreScan (lower x = 120) '0' t
    else underscoreScan false '^' s
  | _ => underscoreScan false '^' s

/-- A scanned literal: its value is `± mantissa * base^exp`, with base 2 for a
hexadecimal literal and base 10 otherwise. -/
structure FloatLit where
  neg : Bool
  hex : Bool
  mantissa : Nat
  exp : Int

/-- The optional exponent of `readFloat`, read from `rest`: the exponent value
to add to the point position, whether an underscore was seen, and the unread
rest; `none` when the exponent is malformed or a hexadecimal literal has
none. -/
def readExponent (hex : Bool) (us : Bool) (rest : List Char) :
    Option (Int × Bool × List Char) :=
  match rest with
  | c :: r1 =>
    if lower c = (if hex then 112 else 101) then
      match r1 with
      | [] => none
      | s :: r2 =>
        let esign : Int := if s = '-' then -1 else 1
        let r3 := if s = '+' ∨ s = '-' then r2 else r1
        match r3 with
        | d :: _ =>
          if isDecimalDigit d then
            let (e, us, r4) := readExpDigits 0 us r3
            some ((e : Int) * esign, us, r4)
          else none
        | [] => none
    else if hex then none else some (0, us, rest)
  | [] => if hex then none else some (0, us, rest)

/-- Go's `readFloat`: the literal at the start of `s` and the unread rest, or
`none` when `s` does not start with a well-formed literal. -/
def readFloat (s : List Char) : Option (FloatLit × List Char) :=
  match s with
  | [] => none
  | c :: t =>
    let neg := decide (c = '-')
    let r := if c = '+' ∨ c = '-' then t else s
    let hex := match r with
      | z :: x :: _ :: _ => decide (z = '0' ∧ lower x = 120)
      | _ => false
    let (st, rest) :=
      readDigits hex ⟨0, 0, 0, false, false, false⟩ (if hex then r.drop 2 else r)
    if !st.sawdigits then none
    else
      let dp := if st.sawdot then st.dp else st.nd
      let dp := if hex then dp * 4 else dp
      let nd := if hex then st.nd * 4 else st.nd
      match readExponent hex st.underscores rest with
      | none => none
      | some (e, us, rest) =>
        if us ∧ !underscoreOK (s.take (s.length - rest.length)) then none
        else some (⟨neg, hex, st.mantissa, if st.mantissa = 0 then 0 else dp + e - nd⟩, rest)

/-- The binary64 value nearest to the exact value of a scanned literal. -/
def FloatLit.toF64 (l : FloatLit) : F64 :=
  let base : Nat := if l.hex then 2 else 10
  if 0 ≤ l.exp then F64.round l.neg (l.mantissa * base ^ l.exp.toNat) 1
  else F64.round l.neg l.mantissa (base ^ (-l.exp).toNat)

/-- Go's `parseFloatPrefix` for 64 bits: the value, the unread rest, and the
error. A literal too large for binary64 gives an infinity with `ErrRange`. -/
def parseFloatPrefix (s : List Char) : F64 × List Char × Option NumError :=
  match special s with
  | some (v, n) => (v, s.drop n, none)
  | none =>
    match readFloat s with
    | none => (F64.fin 0, s, some NumError.ErrSyntax)
    | some (l, rest) =>
      match l.toF64 with
      | F64.inf neg => (F64.inf neg, rest, some NumError.ErrRange)
      | v => (v, rest, none)

/-- Go's `strconv.ParseFloat(s, 64)`: the parsed value and the error, `none`
for `nil`. On a syntax error the value is `0`; on a range error it is an
infinity. -/
def ParseFloat (s : String) : F64 × Option NumError :=
  match parseFloatPrefix s.toList with
  | (f, rest, err) =>
    if rest ≠ [] ∧ err ≠ some NumError.ErrSyntax then (F64.fin 0, some NumError.ErrSyntax)
    else (f, err)

end strconv

/-! ## `unicode` and `strings` -/

namespace unicode

/-- The range tables `unicode.Letter` (category L) and `unicode.Digit`
(category Nd) as membership tests. They are consulted only for runes above
Latin-1 (`isExcludingLatin`) and depend on the Unicode version of the Go
release, so they are a parameter of the model. -/
structure Tables where
  Letter : Char → Bool
  Digit : Char → Bool

/-- Go's `unicode.MaxLatin1`. -/
def MaxLatin1 : Nat := 0xFF

/-- Go's `unicode.IsDigit`: a decimal digit (category Nd). -/
def IsDigit (tab : Tables) (r : Char) : Bool :=
  if r.toNat ≤ MaxLatin1 then decide ('0' ≤ r ∧ r ≤ '9') else tab.Digit r

/-- The Latin-1 runes whose entry in the `properties` table has a letter bit
(`pLu` or `pLl`): A-Z, a-z, U+00AA, U+00B5, U+00BA, U+00C0-U+00D6,
U+00D8-U+00F6 and U+00F8-U+00FF. -/
def latin1Letter (c : Nat) : Bool :=
  (0x41 ≤ c && c ≤ 0x5A) || (0x61 ≤ c && c ≤ 0x7A) || c == 0xAA || c == 0xB5 || c == 0xBA
    || (0xC0 ≤ c && c ≤ 0xD6) || (0xD8 ≤ c && c ≤ 0xF6) || (0xF8 ≤ c && c ≤ 0xFF)

/-- Go's `unicode.IsLetter`: a letter (category L). -/
def IsLetter (tab : Tables) (r : Char) : Bool :=
  if r.toNat ≤ MaxLatin1 then latin1Letter r.toNat else tab.Letter r

/-- Go's `unicode.IsSpace`: the Latin-1 spaces `\t \n \v \f \r`, space, U+0085
and U+00A0, and above Latin-1 the `White_Space` range table. -/
def IsSpace (r : Char) : Bool :=
  let c := r.toNat
  if c ≤ MaxLatin1 then
    (0x09 ≤ c && c ≤ 0x0D) || c == 0x20 || c == 0x85 || c == 0xA0
  else
    c == 0x1680 || (0x2000 ≤ c && c ≤ 0x200A) || c == 0x2028 || c == 0x2029
      || c == 0x202F || c == 0x205F || c == 0x3000

end unicode

/-- Go's `strings.TrimSpace`: `s` without its leading and trailing white
space. -/
def strings.TrimSpace (s : String) : String :=
  ⟨((s.toList.dropWhile unicode.IsSpace).reverse.dropWhile unicode.IsSpace).reverse⟩

/-- Go's `len(s)` for a string: the number of bytes of its UTF-8 encoding. -/
def len (s : String) : Int := ((s.toList.map Char.utf8Size).sum : Nat)

/-! ## `time.Parse`

`time.Parse` for the layouts `"2006-01-02"` and `"15:04"`. A layout is given as
the list of chunks `nextStdChunk` cuts it into; a `Time` is given by its civil
fields in UTC, which is all the program reads (`Day`, `Hour`). -/

namespace time

/-- A `time.Time` by its civil fields (UTC). -/
structure Time where
  year : Int
  month : Int
  day : Int
  hour : Int
  min : Int
deriving DecidableEq

/-- The zero value `Time{}`: January 1 of year 1, 00:00 UTC. `Parse` returns it
with every error. -/
def Time.zero : Time := ⟨1, 1, 1, 0, 0⟩

/-- Go's `Time.Day`. -/
def Time.Day (t : Time) : Int := t.day

/-- Go's `Time.Hour`. -/
def Time.Hour (t : Time) : Int := t.hour

/-- The layout chunks that occur in the two layouts of the program. -/
inductive Chunk where
  | stdLongYear
  | stdZeroMonth
  | stdZeroDay
  | stdHour
  | stdZeroMinute
  | literal (c : Char)

/-- The layout `"2006-01-02"`. -/
def layoutDate : List Chunk :=
  [Chunk.stdLongYear, Chunk.literal '-', Chunk.stdZeroMonth, Chunk.literal '-', Chunk.stdZeroDay]

/-- The layout `"15:04"`. -/
def layoutClock : List Chunk :=
  [Chunk.stdHour, Chunk.literal ':', Chunk.stdZeroMinute]

/-- Whether `c` is an ASCII digit. -/
def isDigit (c : Char) : Bool := decide ('0' ≤ c ∧ c ≤ '9')

/-- The value of an ASCII digit. -/
def digitVal (c : Char) : Int := (c.toNat - 48 : Nat)

/-- Go's `getnum`: a one- or two-digit number at the start of `s` (exactly
two digits when `fixed`) and the rest. -/
def getnum (s : List Char) (fixed : Bool) : Option (Int × List Char) :=
  match s with
  | a :: b :: rest =>
    if !isDigit a then none
    else if !isDigit b then (if fixed then none else some (digitVal a, b :: rest))
    else some (digitVal a * 10 + digitVal b, rest)
  | [a] => if !isDigit a || fixed then none else some (digitVal a, [])
  | [] => none

/-- Go's `isLeap`. -/
def isLeap (year : Int) : Bool := year % 4 == 0 && (year % 100 != 0 || year % 400 == 0)

/-- Go's `daysIn`: the number of days of month `m` in `year`. -/
def daysIn (m : Int) (year : Int) : Int :=
  if m = 2 then (if isLeap year then 29 else 28)
  else if m = 4 ∨ m = 6 ∨ m = 9 ∨ m = 11 then 30 else 31

/-- The fields `Parse` collects; a month or day of `-1` is one the layout did
not set. -/
structure Fields where
  year : Int := 0
  month : Int := -1
  day : Int := -1
  hour : Int := 0
  min : Int := 0

/-- One layout chunk of `Parse` applied to the rest of the value: the updated
fields and the new rest, or `none` for a parse or range error. -/
def parseChunk (f : Fields) (value : List Char) : Chunk → Option (Fields × List Char)
  | Chunk.literal c =>
    match value with
    | v :: rest => if v = c then some (f, rest) else none
    | [] => none
  | Chunk.stdLongYear =>
    match value with
    | a :: b :: c :: d :: rest =>
      if isDigit a && isDigit b && isDigit c && isDigit d then
        some ({ f with year := digitVal a * 1000 + digitVal b * 100 + digitVal c * 10 + digitVal d },
          rest)
      else none
    | _ => none
  | Chunk.stdZeroMonth =>
    match getnum value true with
    | some (month, rest) => if month ≤ 0 ∨ 12 < month then none else some ({ f with month := month }, rest)
    | none => none
  | Chunk.stdZeroDay =>
    match getnum value true with
    | some (day, rest) => some ({ f with day := day }, rest)
    | none => none
  | Chunk.stdHour =>
    match getnum value false with
    | some (hour, rest) => if hour < 0 ∨ 24 ≤ hour then none else some ({ f with hour := hour }, rest)
    | none => none
  | Chunk.stdZeroMinute =>
    match getnum value true with
    | some (min, rest) => if min < 0 ∨ 60 ≤ min then none else some ({ f with min := min }, rest)
    | none => none

/-- The chunk loop of `Parse`: every chunk in turn, then no text may be left. -/
def parseChunks : List Chunk → Fields → List Char → Option Fields
  | [], f, value => if value = [] then some f else none
  | ch :: layout, f, value =>
    match parseChunk f value ch with
    | some (f, rest) => parseChunks layout f rest
    | none => none

/-- Go's `time.Parse(layout, value)`: the time and whether there was an error
(`true` for a non-nil error). Unset month and day default to January 1, the day
must exist in its month, and on every error the time returned is `Time{}`. -/
def Parse (layout : List Chunk) (value : String) : Time × Bool :=
  match parseChunks layout {} value.toList with
  | none => (Time.zero, true)
  | some f =>
    let month := if f.month < 0 then 1 else f.month
    let day := if f.day < 0 then 1 else f.day
    if day < 1 ∨ day > daysIn month f.year then (Time.zero, true)
    else (⟨f.year, month, day, f.hour, f.min⟩, false)

end time

/-! ## The program: `main.go` -/

/-- The struct `Items`: one line of a receipt. -/
structure Items where
  ShortDescription : String
  Price : String

/-- The struct `Receipt`. -/
structure Receipt where
  ID : String
  Retailer : String
  PurchasedDate : String
  PurchasedTime : String
  Total : String
  Items : List Items

/-- `addRetailerPoints`: one point for every rune of the name that is a digit
or a letter. The counter is bounded by the length of the string, so it cannot
overflow. -/
def addRetailerPoints (tab : unicode.Tables) (retailerName : String) : Int :=
  retailerName.toList.foldl
    (fun points r => if unicode.IsDigit tab r || unicode.IsLetter tab r then points + 1 else points) 0

/-- `isMultiple`: `int(total*100)%25 == 0`. -/
def isMultiple (total : F64) : Bool :=
  Int.tmod (F64.toInt (F64.mul total F64.c100)) 25 == 0

/-- `isRoundDollar`: `total == float64(int(total))`. -/
def isRoundDollar (total : F64) : Bool :=
  F64.eq total (F64.ofInt (F64.toInt total))

/-- `calculateItemDescription`: for every item whose trimmed description has a
length divisible by 3, add `int(math.Ceil(priceFloat * 0.02))`; the error of
`ParseFloat` is discarded. -/
def calculateItemDescription (items : List Items) : Int :=
  items.foldl
    (fun currPoint item =>
      let trimmedDescription := strings.TrimSpace item.ShortDescription
      let descriptionLen := len trimmedDescription
      let priceFloat := (strconv.ParseFloat item.Price).1
      if Int.tmod descriptionLen 3 = 0 then
        wrapInt64 (currPoint + F64.toInt (math.Ceil (F64.mul priceFloat F64.c0_02)))
      else currPoint)
    0

/-- `isOddDate`: the day of the parsed date is odd; the error of `time.Parse`
is discarded. -/
def isOddDate (dateString : String) : Bool :=
  let date := (time.Parse time.layoutDate dateString).1
  let day := date.Day
  Int.tmod day 2 != 0

/-- `isBetween2And4PM`: the time parses and its hour is 14 or 15. -/
def isBetween2And4PM (purchasedTime : String) : Bool :=
  match time.Parse time.layoutClock purchasedTime with
  | (_, true) => false
  | (parsedTime, false) =>
    let hour := parsedTime.Hour
    decide (hour ≥ 14 ∧ hour < 16)

/-- `calculatePoints`: the sum of the rules, accumulated in `point`. -/
def calculatePoints (tab : unicode.Tables) (receipt : Receipt) : Int :=
  let point : Int := 0
  let retailerName := receipt.Retailer
  let point := wrapInt64 (point + addRetailerPoints tab retailerName)
  let totalFloat := (strconv.ParseFloat receipt.Total).1
  let point := if isRoundDollar totalFloat then wrapInt64 (point + 50) else point
  let point := if isMultiple totalFloat then wrapInt64 (point + 25) else point
  let numberOfItems : Int := receipt.Items.length
  let point := wrapInt64 (point + (numberOfItems / 2) * 5)
  let point := wrapInt64 (point + calculateItemDescription receipt.Items)
  let point := if isOddDate receipt.PurchasedDate then wrapInt64 (point + 6) else point
  let point := if isBetween2And4PM receipt.PurchasedTime then wrapInt64 (point + 10) else point
  point

/-! ## Predicates and sample receipts used in the statements -/

/-- `|x| < b` for a finite float `x` and a whole number `b`; false for the
infinities and NaN. -/
def F64.absLt : F64 → Nat → Bool
  | F64.fin n, b => decide (n.natAbs < b * 2 ^ 1074)
  | _, _ => false

/-- The float `x` is an integer multiple of `0.25`. -/
def F64.isQuarterMultiple : F64 → Bool
  | F64.fin n => decide ((2 : Int) ^ 1072 ∣ n)
  | _ => false

/-- The float `x` is finite and lies between the whole numbers `lo` and
`hi`. -/
def F64.between (lo hi : Int) : F64 → Prop
  | F64.fin n => lo * F64.one ≤ n ∧ n ≤ hi * F64.one
  | _ => False

instance (lo hi : Int) (x : F64) : Decidable (F64.between lo hi x) := by
  cases x <;> unfold F64.between <;> infer_instance

/-- A receipt with a refunded (negative-price) line. -/
def refundReceipt : Receipt :=
  { ID := "", Retailer := "Target", PurchasedDate := "2022-01-02", PurchasedTime := "13:01",
    Total := "1.01", Items := [⟨"abc", "-1000.00"⟩] }

/-- A receipt with an empty retailer name and no items, for a given purchase
date, purchase time and total. -/
def receiptWith (date time total : String) : Receipt :=
  { ID := "", Retailer := "", PurchasedDate := date, PurchasedTime := time, Total := total,
    Items := [] }

/-- A receipt with five items, two of which have a description whose trimmed
length is divisible by 3. -/
def sampleReceipt : Receipt :=
  { ID := "", Retailer := "Target", PurchasedDate := "2022-01-01", PurchasedTime := "13:01",
    Total := "35.35",
    Items := [⟨"Mountain Dew 12PK", "6.49"⟩, ⟨"Emils Cheese Pizza", "12.25"⟩,
      ⟨"Knorr Creamy Chicken", "1.26"⟩, ⟨"Doritos Nacho Cheese", "3.35"⟩,
      ⟨"   Klarbrunn 12-PK 12 FL OZ  ", "12.00"⟩] }

/-! ## Spec-side definitions -/

/-- The score of a receipt as the specification words it: the plain sum of
the rule contributions, in unbounded integers. -/
def rulesSum (tab : unicode.Tables) (r : Receipt) : Int :=
  let t := (strconv.ParseFloat r.Total).1
  addRetailerPoints tab r.Retailer
    + (if isRoundDollar t then 50 else 0)
    + (if isMultiple t then 25 else 0)
    + 5 * ((r.Items.length : Int) / 2)
    + calculateItemDescription r.Items
    + (if isOddDate r.PurchasedDate then 6 else 0)
    + (if isBetween2And4PM r.PurchasedTime then 10 else 0)

/-- The contribution of one item as the specification words it:
`ceil(price * 0.02)` when the trimmed description has a length divisible by 3,
and 0 otherwise. -/
def itemPoints (item : Items) : Int :=
  if Int.tmod (len (strings.TrimSpace item.ShortDescription)) 3 = 0 then
    F64.toInt (math.Ceil (F64.mul (strconv.ParseFloat item.Price).1 F64.c0_02))
  else 0

/-! ## `strings.TrimPrefix` and `strings.TrimSuffix` -/

/-- Go's `strings.TrimPrefix`: `s` without the leading `pre`, or `s` itself
when it does not start with `pre`. -/
def strings.TrimPrefix (s pre : String) : String :=
  if pre.toList.isPrefixOf s.toList then ⟨s.toList.drop pre.toList.length⟩ else s

/-- Go's `strings.TrimSuffix`: `s` without the trailing `suf`, or `s` itself
when it does not end with `suf`. -/
def strings.TrimSuffix (s suf : String) : String :=
  if suf.toList.isSuffixOf s.toList then
    ⟨s.toList.take (s.toList.length - suf.toList.length)⟩
  else s

/-! ## The HTTP handlers

A handler is a function from the store and the request to the new store and
the reply written to the `http.ResponseWriter`. What the handlers take from
outside the program text is passed in: the body as `io.ReadAll` returns it,
the decoder `json.Unmarshal`, and the string of the freshly generated UUID. -/

/-- A JSON value of the kinds the program emits: a string or an integer. -/
inductive json.Value where
  | str (s : String)
  | num (n : Int)
deriving DecidableEq

namespace http

/-- The parts of an `*http.Request` the handlers read: the method, `URL.Path`,
and the result of `io.ReadAll(r.Body)`, `none` when reading fails. -/
structure Request where
  Method : String
  Path : String
  Body : Option String

/-- What a handler writes as the body: plain text, or a JSON object given by
its members in the order they are written. -/
inductive Content where
  | text (s : String)
  | json (members : List (String × json.Value))
deriving DecidableEq

/-- What a handler leaves in the `http.ResponseWriter`: the status code, the
`Content-Type` header and the body. -/
structure Reply where
  Status : Nat
  ContentType : String
  Body : Content
deriving DecidableEq

/-- Go's `http.StatusOK`. -/
def StatusOK : Nat := 200

/-- Go's `http.StatusBadRequest`. -/
def StatusBadRequest : Nat := 400

/-- Go's `http.StatusNotFound`. -/
def StatusNotFound : Nat := 404

/-- Go's `http.StatusMethodNotAllowed`. -/
def StatusMethodNotAllowed : Nat := 405

/-- Go's `http.MethodPost`. -/
def MethodPost : String := "POST"

/-- Go's `http.Error(w, error, code)`: the message and a newline as plain
text, with the given status. -/
def Error (error : String) (code : Nat) : Reply :=
  { Status := code, ContentType := "text/plain; charset=utf-8", Body := Content.text (error ++ "\n") }

end http

/-- The struct `Response`; a field left out of a composite literal has its
zero value. -/
structure Response where
  ID : String := ""
  Points : Int := 0

/-- The object `json.NewEncoder(w).Encode(response)` writes for a `Response`:
one member for every field, under the name of its `json` tag; neither tag has
`omitempty`, so both members are always written. -/
def Response.encode (response : Response) : List (String × json.Value) :=
  [("id", json.Value.str response.ID), ("points", json.Value.num response.Points)]

/-- The reply of a handler that sets `Content-Type: application/json` and
encodes `response` without writing a status first: status 200. -/
def jsonReply (response : Response) : http.Reply :=
  { Status := http.StatusOK, ContentType := "application/json",
    Body := http.Content.json response.encode }

/-- The global `receiptStore`, a `map[string]Receipt`: what every key maps to,
`none` for a key that is absent. -/
def Store : Type := String → Option Receipt

/-- The map `make(map[string]Receipt)` creates: no key is present. -/
def Store.empty : Store := fun _ => none

/-- The lookup `receiptStore[id]` with its `exists` flag. -/
def Store.get (m : Store) (id : String) : Option Receipt := m id

/-- The assignment `receiptStore[id] = receipt`. -/
def Store.set (m : Store) (id : String) (receipt : Receipt) : Store :=
  fun k => if k = id then some receipt else m k

/-- `processReceiptPointsHandler`: look up the id cut out of the path; 404 when
it is absent, else the points of the stored receipt as JSON. The store is not
assigned to. -/
def processReceiptPointsHandler (tab : unicode.Tables) (receiptStore : Store)
    (r : http.Request) : Store × http.Reply :=
  let id := strings.TrimPrefix r.Path "/receipts/"
  let id := strings.TrimSuffix id "/points"
  match receiptStore.get id with
  | none => (receiptStore, http.Error "Receipt not found" http.StatusNotFound)
  | some receipt =>
    let points := calculatePoints tab receipt
    let response : Response := { Points := points }
    (receiptStore, jsonReply response)

/-- `processReceiptHandler`: 405 unless the method is POST, 400 when the body
cannot be read or decoded, else store the decoded receipt under the new id and
answer with the id as JSON. `unmarshal` is `json.Unmarshal` into a zero
`Receipt` (`none` for an error) and `uuid` is `uuid.New().String()`. -/
def processReceiptHandler (unmarshal : String → Option Receipt) (uuid : String)
    (receiptStore : Store) (r : http.Request) : Store × http.Reply :=
  if r.Method ≠ http.MethodPost then
    (receiptStore, http.Error "Invalid request method" http.StatusMethodNotAllowed)
  else
    match r.Body with
    | none => (receiptStore, http.Error "Failed to read request body" http.StatusBadRequest)
    | some body =>
      let id := uuid
      match unmarshal body with
      | none => (receiptStore, http.Error "Invalid JSON data" http.StatusBadRequest)
      | some receipt =>
        let receipt := { receipt with ID := id }
        let receiptStore := receiptStore.set id receipt
        let response : Response := { ID := id }
        (receiptStore, jsonReply response)

/-! ## Predicates and sample inputs used in the statements -/

/-- The decimal digit `n % 10` as a character. -/
def digitChar (n : Nat) : Char := Char.ofNat (48 + n % 10)

/-- The last two decimal digits of `n`. -/
def twoDigits (n : Nat) : List Char := [digitChar (n / 10), digitChar n]

/-- The date of year `y`, month `m` and day `d` written as `YYYY-MM-DD`. -/
def dateString (y m d : Nat) : String :=
  ⟨[digitChar (y / 1000), digitChar (y / 100), digitChar (y / 10), digitChar y]
    ++ '-' :: twoDigits m ++ '-' :: twoDigits d⟩

/-- The time of hour `h` and minute `m` written as `HH:MM`. -/
def clockString (h m : Nat) : String := ⟨twoDigits h ++ ':' :: twoDigits m⟩

/-- The float `x` is finite, greater than the whole number `lo` and at most
the whole number `hi`. -/
def F64.gtLe (lo hi : Int) : F64 → Prop
  | F64.fin n => lo * F64.one < n ∧ n ≤ hi * F64.one
  | _ => False

instance (lo hi : Int) (x : F64) : Decidable (F64.gtLe lo hi x) := by
  cases x <;> unfold F64.gtLe <;> infer_instance

/-- The request `GET /receipts/{id}/points`. -/
def pointsRequest (id : String) : http.Request :=
  { Method := "GET", Path := "/receipts/" ++ id ++ "/points", Body := some "" }

/-- A decoder that knows one body: `{}` decodes, as with `json.Unmarshal`, to
the zero `Receipt`; it is used to state the handlers at a concrete request. -/
def unmarshalEmptyObject (body : String) : Option Receipt :=
  if body = "{}" then some ⟨"", "", "", "", "", []⟩ else none

/-- The inline item-count rule of `calculatePoints`:
`(numberOfItems / 2) * 5`. -/
def itemCountPoints (items : List Items) : Int := ((items.length : Int) / 2) * 5

/-- The sum of the rules other than the item-count rule, in unbounded
integers. -/
def otherRulesSum (tab : unicode.Tables) (r : Receipt) : Int :=
  let t := (strconv.ParseFloat r.Total).1
  addRetailerPoints tab r.Retailer
    + (if isRoundDollar t then 50 else 0)
    + (if isMultiple t then 25 else 0)
    + calculateItemDescription r.Items
    + (if isOddDate r.PurchasedDate then 6 else 0)
    + (if isBetween2And4PM r.PurchasedTime then 10 else 0)

/-- The names of the members of a JSON body, in the order written; no names
for a plain text body. -/
def http.Content.memberNames : http.Content → List String
  | http.Content.json members => members.map Prod.fst
  | http.Content.text _ => []

/-- A receipt whose two items are each priced at `4e20`. -/
def hugePricesReceipt : Receipt :=
  { ID := "", Retailer := "", PurchasedDate := "2022-01-02", PurchasedTime := "13:01",
    Total := "0.01", Items := [⟨"abc", "4e20"⟩, ⟨"abc", "4e20"⟩] }

/-- A receipt with a discount line of `-49.99`. -/
def discountReceipt : Receipt :=
  { ID := "", Retailer := "Target", PurchasedDate := "2022-01-02", PurchasedTime := "13:01",
    Total := "2.26", Items := [⟨"abc", "-49.99"⟩, ⟨"Gatorade", "2.25"⟩, ⟨"mug", "50.00"⟩] }

/-- The inline round-dollar rule of `calculatePoints`, as a function of the
field `Total`: 50 if `isRoundDollar` holds of the parsed total. -/
def roundDollarPoints (total : String) : Int :=
  if isRoundDollar (strconv.ParseFloat total).1 then 50 else 0

/-- The inline quarter rule of `calculatePoints`, as a function of the field
`Total`: 25 if `isMultiple` holds of the parsed total. -/
def quarterPoints (total : String) : Int :=
  if isMultiple (strconv.ParseFloat total).1 then 25 else 0

/-- The inline odd-day rule of `calculatePoints`, as a function of the field
`PurchasedDate`. -/
def oddDayPoints (date : String) : Int := if isOddDate date then 6 else 0

/-- The inline afternoon rule of `calculatePoints`, as a function of the field
`PurchasedTime`. -/
def afternoonPoints (time : String) : Int := if isBetween2And4PM time then 10 else 0

/-- A receipt with a price above the range of `float64` and a price of
`-50`. -/
def overflowReceipt : Receipt :=
  { ID := "", Retailer := "", PurchasedDate := "2022-01-01", PurchasedTime := "13:01",
    Total := "0.01", Items := [⟨"abc", "1e999"⟩, ⟨"abc", "-50"⟩] }

/-- A receipt whose two finite prices earn `2^63 - 1024` and `1000` points. -/
def largePriceReceipt : Receipt :=
  { ID := "", Retailer := "", PurchasedDate := "2022-01-01", PurchasedTime := "13:01",
    Total := "35.00", Items := [⟨"abc", "4.611686018427387e20"⟩, ⟨"abc", "50000"⟩] }

/-! # Theorems -/

/-! ## Go `int` arithmetic -/

theorem wrapInt64_of_inInt64 {x : Int} (h : inInt64 x) : wrapInt64 x = x := by
  unfold inInt64 at h
  unfold wrapInt64
  omega

theorem wrapInt64_wrap_add (a b : Int) : wrapInt64 (wrapInt64 a + b) = wrapInt64 (a + b) := by
  unfold wrapInt64
  omega

theorem calculatePoints_eq_wrap (tab : unicode.Tables) (r : Receipt) :
    calculatePoints tab r = wrapInt64 (rulesSum tab r) := by
  unfold calculatePoints rulesSum
  simp only []
  generalize addRetailerPoints tab r.Retailer = a
  generalize calculateItemDescription r.Items = d
  generalize ((r.Items.length : Int) / 2) = n
  cases isRoundDollar (strconv.ParseFloat r.Total).1 <;>
  cases isMultiple (strconv.ParseFloat r.Total).1 <;>
  cases isOddDate r.PurchasedDate <;>
  cases isBetween2And4PM r.PurchasedTime <;>
  simp only [wrapInt64_wrap_add, if_true, if_false, Bool.false_eq_true] <;>
  congr 1 <;> ring

theorem foldl_itemPoints (items : List Items) (acc : Int) :
    items.foldl
      (fun currPoint item =>
        let trimmedDescription := strings.TrimSpace item.ShortDescription
        let descriptionLen := len trimmedDescription
        let priceFloat := (strconv.ParseFloat item.Price).1
        if Int.tmod descriptionLen 3 = 0 then
          wrapInt64 (currPoint + F64.toInt (math.Ceil (F64.mul priceFloat F64.c0_02)))
        else currPoint)
      (wrapInt64 acc)
    = wrapInt64 (acc + (items.map itemPoints).sum) := by
  induction items generalizing acc with
  | nil => simp
  | cons it rest ih =>
    simp only [List.foldl_cons, List.map_cons, List.sum_cons]
    by_cases h : Int.tmod (len (strings.TrimSpace it.ShortDescription)) 3 = 0
    · rw [if_pos h, wrapInt64_wrap_add, ih]
      simp only [itemPoints, if_pos h]
      congr 1; ring
    · rw [if_neg h, ih]
      simp only [itemPoints, if_neg h]
      congr 1; ring

theorem calculateItemDescription_eq_wrap (items : List Items) :
    calculateItemDescription items = wrapInt64 ((items.map itemPoints).sum) := by
  have h := foldl_itemPoints items 0
  have h0 : wrapInt64 0 = 0 := by decide
  rw [h0, Int.zero_add] at h
  exact h

/-! ## Rounding -/

theorem binaryExponent_le (P q : Nat) :
    ∀ fuel k, (0 < k → q * 2 ^ k ≤ P) → 0 < binaryExponent P q fuel k →
      q * 2 ^ binaryExponent P q fuel k ≤ P := by
  intro fuel
  induction fuel with
  | zero => intro k hk hpos; simpa [binaryExponent] using hk hpos
  | succ fuel ih =>
    intro k hk hpos
    unfold binaryExponent at hpos ⊢
    by_cases h : q * 2 ^ (k + 1) ≤ P
    · rw [if_pos h] at hpos ⊢
      exact ih (k + 1) (fun _ => h) hpos
    · rw [if_neg h] at hpos ⊢
      exact hk hpos

theorem roundHalfEven_le {a b M : Nat} (hb : 0 < b) (h : a ≤ M * b) :
    roundHalfEven a b ≤ M := by
  have hf : a / b ≤ M := by
    calc a / b ≤ M * b / b := Nat.div_le_div_right h
      _ = M := Nat.mul_div_cancel _ hb
  unfold roundHalfEven
  simp only []
  rcases Nat.lt_or_ge (a / b) M with hlt | hge
  · split_ifs <;> omega
  · have hfe : a / b = M := Nat.le_antisymm hf hge
    have hr : a % b = 0 := by
      have h1 := Nat.div_add_mod a b
      rw [hfe] at h1
      have h2 : b * M = M * b := Nat.mul_comm _ _
      omega
    rw [hr, if_pos (by omega)]
    exact hf

theorem le_roundHalfEven {a b M : Nat} (hb : 0 < b) (h : M * b ≤ a) :
    M ≤ roundHalfEven a b := by
  have hf : M ≤ a / b := (Nat.le_div_iff_mul_le hb).2 h
  unfold roundHalfEven
  simp only []
  split_ifs <;> omega

/-- The shift chosen by `roundScaled` is at most that of any 53-bit value
which bounds the rounded number from above. -/
theorem shift_le {P q m w : Nat} (hq : 0 < q) (hm : m < 2 ^ 53)
    (h : P ≤ m * 2 ^ w * q) : binaryExponent P q P 0 - 52 ≤ w := by
  by_contra hcon
  have hpos : 0 < binaryExponent P q P 0 := by omega
  have hle := binaryExponent_le P q P 0 (fun h0 => absurd h0 (Nat.lt_irrefl 0)) hpos
  have h1 : q * 2 ^ binaryExponent P q P 0 ≤ m * 2 ^ w * q := Nat.le_trans hle h
  have h2 : 2 ^ binaryExponent P q P 0 ≤ m * 2 ^ w := by
    rw [Nat.mul_comm q] at h1
    exact Nat.le_of_mul_le_mul_right h1 hq
  have h3 : m * 2 ^ w < 2 ^ 53 * 2 ^ w :=
    Nat.mul_lt_mul_of_pos_right hm (Nat.pos_pow_of_pos w (by decide))
  rw [← Nat.pow_add] at h3
  have h4 : 2 ^ binaryExponent P q P 0 < 2 ^ (53 + w) := Nat.lt_of_le_of_lt h2 h3
  have h5 : binaryExponent P q P 0 < 53 + w := (Nat.pow_lt_pow_iff_right (by decide)).1 h4
  omega

/-- Rounding does not cross a binary64 value above the rounded number. -/
theorem roundScaled_le {p q m w : Nat} (hq : 0 < q) (hm : m < 2 ^ 53)
    (h : p * 2 ^ 1074 ≤ m * 2 ^ w * q) : roundScaled p q ≤ m * 2 ^ w := by
  unfold roundScaled
  simp only []
  have hs := shift_le hq hm h
  generalize binaryExponent (p * 2 ^ 1074) q (p * 2 ^ 1074) 0 - 52 = t at hs ⊢
  obtain ⟨d, rfl⟩ := Nat.exists_eq_add_of_le hs
  have hb : 0 < q * 2 ^ t := Nat.mul_pos hq (Nat.pos_pow_of_pos t (by decide))
  have hM : p * 2 ^ 1074 ≤ (m * 2 ^ d) * (q * 2 ^ t) := by
    calc p * 2 ^ 1074 ≤ m * 2 ^ (t + d) * q := h
      _ = (m * 2 ^ d) * (q * 2 ^ t) := by rw [Nat.pow_add]; ring
  calc roundHalfEven (p * 2 ^ 1074) (q * 2 ^ t) * 2 ^ t
      ≤ (m * 2 ^ d) * 2 ^ t := Nat.mul_le_mul_right _ (roundHalfEven_le hb hM)
    _ = m * 2 ^ (t + d) := by rw [Nat.pow_add]; ring

/-- Rounding does not cross a binary64 value below the rounded number. -/
theorem le_roundScaled {p q m w : Nat} (hq : 0 < q) (hm : m < 2 ^ 53)
    (h : m * 2 ^ w * q ≤ p * 2 ^ 1074) : m * 2 ^ w ≤ roundScaled p q := by
  unfold roundScaled
  simp only []
  rcases Nat.le_total (binaryExponent (p * 2 ^ 1074) q (p * 2 ^ 1074) 0 - 52) w with hs | hs
  · generalize binaryExponent (p * 2 ^ 1074) q (p * 2 ^ 1074) 0 - 52 = t at hs ⊢
    obtain ⟨d, rfl⟩ := Nat.exists_eq_add_of_le hs
    have hb : 0 < q * 2 ^ t := Nat.mul_pos hq (Nat.pos_pow_of_pos t (by decide))
    have hM : (m * 2 ^ d) * (q * 2 ^ t) ≤ p * 2 ^ 1074 := by
      calc (m * 2 ^ d) * (q * 2 ^ t) = m * 2 ^ (t + d) * q := by rw [Nat.pow_add]; ring
        _ ≤ p * 2 ^ 1074 := h
    calc m * 2 ^ (t + d) = (m * 2 ^ d) * 2 ^ t := by rw [Nat.pow_add]; ring
      _ ≤ roundHalfEven (p * 2 ^ 1074) (q * 2 ^ t) * 2 ^ t :=
        Nat.mul_le_mul_right _ (le_roundHalfEven hb hM)
  · rcases Nat.eq_or_lt_of_le hs with heq | hlt
    · -- same shift: as in the first case with `d = 0`
      rw [← heq]
      have hb : 0 < q * 2 ^ w := Nat.mul_pos hq (Nat.pos_pow_of_pos w (by decide))
      have hM : m * (q * 2 ^ w) ≤ p * 2 ^ 1074 := by
        calc m * (q * 2 ^ w) = m * 2 ^ w * q := by ring
          _ ≤ p * 2 ^ 1074 := h
      exact Nat.mul_le_mul_right _ (le_roundHalfEven hb hM)
    · have hpos : 0 < binaryExponent (p * 2 ^ 1074) q (p * 2 ^ 1074) 0 := by omega
      have hle := binaryExponent_le (p * 2 ^ 1074) q (p * 2 ^ 1074) 0
        (fun h0 => absurd h0 (Nat.lt_irrefl 0)) hpos
      generalize binaryExponent (p * 2 ^ 1074) q (p * 2 ^ 1074) 0 = e at hlt hle hpos ⊢
      have he : e = (e - 52) + 52 := by omega
      generalize e - 52 = t at he hlt ⊢
      subst he
      have hb : 0 < q * 2 ^ t := Nat.mul_pos hq (Nat.pos_pow_of_pos t (by decide))
      have hM : 2 ^ 52 * (q * 2 ^ t) ≤ p * 2 ^ 1074 := by
        calc 2 ^ 52 * (q * 2 ^ t) = q * 2 ^ (t + 52) := by rw [Nat.pow_add]; ring
          _ ≤ p * 2 ^ 1074 := hle
      obtain ⟨d, rfl⟩ := Nat.exists_eq_add_of_lt hlt
      calc m * 2 ^ w ≤ 2 ^ 53 * 2 ^ w := Nat.mul_le_mul_right _ (Nat.le_of_lt hm)
        _ ≤ 2 ^ 52 * 2 ^ (w + d + 1) := by
          have : 2 ^ 53 * 2 ^ w = 2 ^ 52 * 2 ^ (w + 1) := by
            rw [← Nat.pow_add, ← Nat.pow_add]; congr 1; omega
          rw [this]
          exact Nat.mul_le_mul_left _ (Nat.pow_le_pow_right (by decide) (by omega))
        _ ≤ roundHalfEven (p * 2 ^ 1074) (q * 2 ^ (w + d + 1)) * 2 ^ (w + d + 1) :=
          Nat.mul_le_mul_right _ (le_roundHalfEven hb hM)

/-- A number that is a binary64 value is its own rounding. -/
theorem roundScaled_exact {p q m w : Nat} (hq : 0 < q) (hm : m < 2 ^ 53)
    (h : p * 2 ^ 1074 = m * 2 ^ w * q) : roundScaled p q = m * 2 ^ w :=
  Nat.le_antisymm (roundScaled_le hq hm (Nat.le_of_eq h)) (le_roundScaled hq hm (Nat.le_of_eq h.symm))

/-! ## `float64` operations on exactly representable values -/

theorem F64.one_eq_cast : F64.one = ((2 ^ 1074 : Nat) : Int) := by
  unfold F64.one
  push_cast
  rfl

theorem F64.one_pos : 0 < F64.one := by
  rw [F64.one_eq_cast]
  exact Int.ofNat_lt.2 (Nat.pos_pow_of_pos 1074 (by decide))

theorem F64.natAbs_one : F64.one.natAbs = 2 ^ 1074 := by
  rw [F64.one_eq_cast, Int.natAbs_ofNat]

theorem F64.round_exact {neg : Bool} {p q m w : Nat} (hq : 0 < q) (hm : m < 2 ^ 53)
    (ht : w ≤ 2045) (h : p * 2 ^ 1074 = m * 2 ^ w * q) :
    F64.round neg p q
      = F64.fin (if neg = true then -((m * 2 ^ w : Nat) : Int) else ((m * 2 ^ w : Nat) : Int)) := by
  have hlt : m * 2 ^ w < 2 ^ 2098 := by
    calc m * 2 ^ w < 2 ^ 53 * 2 ^ w :=
          Nat.mul_lt_mul_of_pos_right hm (Nat.pos_pow_of_pos w (by decide))
      _ ≤ 2 ^ 53 * 2 ^ 2045 := Nat.mul_le_mul_left _ (Nat.pow_le_pow_right (by decide) ht)
      _ = 2 ^ 2098 := by rw [← Nat.pow_add]
  unfold F64.round
  simp only []
  rw [roundScaled_exact hq hm h, if_neg (Nat.not_le.2 hlt)]

/-- A signed magnitude times a scale is the integer it denotes times the
scale. -/
theorem signed_natAbs_mul (a : Int) (c : Nat) :
    (if decide (a < 0) = true then -((a.natAbs * c : Nat) : Int) else ((a.natAbs * c : Nat) : Int))
      = a * (c : Int) := by
  by_cases h : a < 0
  · have h1 : (a.natAbs : Int) = -a := by omega
    simp only [h, decide_True, if_true]
    rw [Nat.cast_mul, h1]; ring
  · have h1 : (a.natAbs : Int) = a := by omega
    simp only [h, decide_False, Bool.false_eq_true, if_false]
    rw [Nat.cast_mul, h1]

/-- `float64(k)` is exact for an integer below `2^53` in magnitude. -/
theorem F64.ofInt_exact {k : Int} (hk : k.natAbs < 2 ^ 53) : F64.ofInt k = F64.fin (k * F64.one) := by
  unfold F64.ofInt
  rw [F64.round_exact (m := k.natAbs) (w := 1074) (by decide) hk (by decide)
    (Nat.mul_one _).symm, signed_natAbs_mul, F64.one_eq_cast]

/-- The product with the constant `100` is exact when it is a binary64
value. -/
theorem F64.mul_c100_exact {a : Int} {m w : Nat} (hm : m < 2 ^ 53) (ht : w ≤ 2045)
    (h : a.natAbs * 100 = m * 2 ^ w) : F64.mul (F64.fin a) F64.c100 = F64.fin (a * 100) := by
  have hc : (100 * F64.one).natAbs = 100 * 2 ^ 1074 := by
    have h100 : (100 : Int).natAbs = 100 := rfl
    rw [Int.natAbs_mul, F64.natAbs_one, h100]
  have hpos : decide (100 * F64.one < 0) = false := by
    have := F64.one_pos
    exact decide_eq_false (by omega)
  have hx : a.natAbs * (100 * 2 ^ 1074) * 2 ^ 1074 = m * 2 ^ w * 2 ^ 2148 := by
    rw [← h]
    have : (2 : Nat) ^ 2148 = 2 ^ 1074 * 2 ^ 1074 := by rw [← Nat.pow_add]
    rw [this]; ring
  unfold F64.c100
  simp only [F64.mul]
  rw [hc, hpos, F64.round_exact (Nat.pos_pow_of_pos 2148 (by decide)) hm ht hx, ← h,
    Bool.bne_false, signed_natAbs_mul]
  rfl

/-- `int(f)` of a whole number that fits an `int` is that number. -/
theorem F64.toInt_whole {j : Int} (hj : inInt64 j) : F64.toInt (F64.fin (j * F64.one)) = j := by
  show (if inInt64 (Int.tdiv (j * F64.one) F64.one) then some (Int.tdiv (j * F64.one) F64.one)
    else none).getD (-(2 ^ 63)) = j
  rw [Int.mul_tdiv_cancel j (Int.ne_of_gt F64.one_pos), if_pos hj]
  rfl

/-- The quarter-multiple rule fires on every whole number of dollars `j` with
`25 * |j| < 2^53`. -/
theorem isMultiple_whole {j : Int} (hj : j.natAbs * 25 < 2 ^ 53) :
    isMultiple (F64.fin (j * F64.one)) = true := by
  have hm : (j * F64.one).natAbs * 100 = (j.natAbs * 25) * 2 ^ 1076 := by
    rw [Int.natAbs_mul, F64.natAbs_one]
    have : (2 : Nat) ^ 1076 = 2 ^ 1074 * 2 ^ 2 := by rw [← Nat.pow_add]
    rw [this]; ring
  have hin : inInt64 (j * 100) := by
    unfold inInt64
    have : (2 : Nat) ^ 53 = 9007199254740992 := by norm_num
    omega
  unfold isMultiple
  rw [F64.mul_c100_exact hj (by decide) hm]
  have : j * F64.one * 100 = (j * 100) * F64.one := by ring
  rw [this, F64.toInt_whole hin]
  simp [Int.tmod_eq_zero_of_dvd (show (25 : Int) ∣ j * 100 from ⟨j * 4, by ring⟩)]

/-! ## `ParseFloat` on malformed input -/

theorem parseFloatPrefix_syntax_value {s : List Char}
    (h : (strconv.parseFloatPrefix s).2.2 = some strconv.NumError.ErrSyntax) :
    (strconv.parseFloatPrefix s).1 = F64.fin 0 := by
  revert h
  unfold strconv.parseFloatPrefix
  split
  · intro h; exact absurd h (by simp)
  · split
    · intro _; rfl
    · split
      · intro h; exact absurd h (by simp)
      · intro h; exact absurd h (by simp)

/-- On a syntax error `ParseFloat` returns the value `0`. -/
theorem ParseFloat_syntax_value {s : String}
    (h : (strconv.ParseFloat s).2 = some strconv.NumError.ErrSyntax) :
    (strconv.ParseFloat s).1 = F64.fin 0 := by
  revert h
  unfold strconv.ParseFloat
  split
  next f rest err heq =>
    split
    · intro _; rfl
    · intro h
      have h1 := parseFloatPrefix_syntax_value (s := s.toList) (by rw [heq]; exact h)
      rw [heq] at h1
      exact h1

/-! ## `time.Parse` on malformed input -/

/-- With every error `time.Parse` returns the zero `Time`. -/
theorem Parse_error_zero {layout : List time.Chunk} {s : String}
    (h : (time.Parse layout s).2 = true) : (time.Parse layout s).1 = time.Time.zero := by
  unfold time.Parse at h ⊢
  cases hp : time.parseChunks layout {} s.toList with
  | none => rfl
  | some f =>
    rw [hp] at h
    simp only at h ⊢
    split_ifs at h ⊢ <;> rfl

/-! ## Retailer rule -/

theorem foldl_count (p : Char → Bool) (l : List Char) (acc : Int) :
    l.foldl (fun points r => if p r then points + 1 else points) acc
      = acc + (l.countP p : Int) := by
  induction l generalizing acc with
  | nil => simp
  | cons c rest ih =>
    simp only [List.foldl_cons, List.countP_cons]
    rw [ih]
    by_cases h : p c
    · simp only [h, if_true]; push_cast; ring
    · simp only [h, if_false, Bool.false_eq_true]; push_cast; ring

theorem addRetailerPoints_eq_countP (tab : unicode.Tables) (s : String) :
    addRetailerPoints tab s
      = (s.toList.countP (fun r => unicode.IsDigit tab r || unicode.IsLetter tab r) : Int) := by
  unfold addRetailerPoints
  rw [foldl_count (fun r => unicode.IsDigit tab r || unicode.IsLetter tab r)]
  simp

theorem addRetailerPoints_target (tab : unicode.Tables) : addRetailerPoints tab "Target" = 6 := by
  rfl

/-! ## The claims -/

/-- C1, amended. `calculatePoints` is the sum of the seven rule contributions
taken in Go's 64-bit `int`: the retailer points, 50 and 25 from the total, 5
for every two items, the item descriptions, 6 from the date and 10 from the
time, added up and wrapped into the range of an `int`. It is the plain integer
sum whenever that sum fits an `int`. Every contribution is computed from one
field of the receipt alone: the retailer rule from `Retailer`, the round-dollar
and the quarter rule both from `Total`, the item-count and the description rule
both from `Items`, the odd-day rule from `PurchasedDate` and the afternoon rule
from `PurchasedTime`. -/
theorem calculatePoints_eq_rulesSum (tab : unicode.Tables) :
    (∀ r, calculatePoints tab r = wrapInt64 (rulesSum tab r))
      ∧ (∀ r, inInt64 (rulesSum tab r) → calculatePoints tab r = rulesSum tab r)
      ∧ (∀ r, rulesSum tab r
            = addRetailerPoints tab r.Retailer
              + roundDollarPoints r.Total + quarterPoints r.Total
              + itemCountPoints r.Items + calculateItemDescription r.Items
              + oddDayPoints r.PurchasedDate + afternoonPoints r.PurchasedTime) := by
  refine ⟨calculatePoints_eq_wrap tab, fun r h => ?_, fun r => ?_⟩
  · rw [calculatePoints_eq_wrap, wrapInt64_of_inInt64 h]
  · simp only [rulesSum, roundDollarPoints, quarterPoints, itemCountPoints, oddDayPoints,
      afternoonPoints]
    ring

/-- C1 at `sampleReceipt`: the sum of its rules, 6 + 0 + 0 + 10 + 2 + 6 + 0,
fits an `int`, and its score is 24 under all Unicode tables. -/
theorem calculatePoints_sample : ¬ ∃ tab, calculatePoints tab sampleReceipt ≠ 24 := by
  rintro ⟨tab, h⟩
  have hs : rulesSum tab sampleReceipt = 24 := by
    simp only [rulesSum, sampleReceipt, addRetailerPoints_target]
    decide!
  exact h (((calculatePoints_eq_rulesSum tab).2.1 sampleReceipt (by rw [hs]; decide)).trans hs)

/-- C1, as stated, fails: the score is not always the plain sum of the
contributions, and two pairs of rules read the same field. The items of
`overflowReceipt` earn `-2^63` (the conversion of `+Inf` on amd64) and `-1`,
which wrap to `2^63 - 1`; with 5 for the two items and 6 for the odd day the
plain sum is `9223372036854775818`, above the largest `int`, and the score is
`-9223372036854775798`. The same happens without any out-of-range conversion
at `largePriceReceipt`, whose finite prices earn `2^63 - 1024` and `1000`: the
plain sum is `9223372036854775870` and the score `-9223372036854775746`. The
round-dollar and the quarter contribution both change with the field `Total`
(`"1.00"` against `"1.10"`), and the item-count and the description
contribution both change with the field `Items`. -/
theorem calculatePoints_ne_plain_sum :
    (¬ ∃ tab, calculatePoints tab overflowReceipt = rulesSum tab overflowReceipt)
      ∧ (∀ tab, calculatePoints tab overflowReceipt = -9223372036854775798
          ∧ rulesSum tab overflowReceipt = 9223372036854775818)
      ∧ (∀ item ∈ largePriceReceipt.Items, (strconv.ParseFloat item.Price).2 = none)
      ∧ (∀ tab, calculatePoints tab largePriceReceipt = -9223372036854775746
          ∧ rulesSum tab largePriceReceipt = 9223372036854775870)
      ∧ (roundDollarPoints "1.00" = 50 ∧ roundDollarPoints "1.10" = 0
          ∧ quarterPoints "1.00" = 25 ∧ quarterPoints "1.10" = 0)
      ∧ (itemCountPoints [] = 0 ∧ itemCountPoints [⟨"abc", "50"⟩, ⟨"abc", "50"⟩] = 5
          ∧ calculateItemDescription [] = 0
          ∧ calculateItemDescription [⟨"abc", "50"⟩, ⟨"abc", "50"⟩] = 2) := by
  have h0 : ∀ tab, addRetailerPoints tab "" = 0 := fun _ => rfl
  have h1 : ∀ tab, calculatePoints tab overflowReceipt = -9223372036854775798 := by
    intro tab
    rw [calculatePoints_eq_wrap]
    simp only [rulesSum, overflowReceipt, h0]
    decide!
  have h2 : ∀ tab, rulesSum tab overflowReceipt = 9223372036854775818 := by
    intro tab
    simp only [rulesSum, overflowReceipt, h0]
    decide!
  have h3 : ∀ tab, calculatePoints tab largePriceReceipt = -9223372036854775746 := by
    intro tab
    rw [calculatePoints_eq_wrap]
    simp only [rulesSum, largePriceReceipt, h0]
    decide!
  have h4 : ∀ tab, rulesSum tab largePriceReceipt = 9223372036854775870 := by
    intro tab
    simp only [rulesSum, largePriceReceipt, h0]
    decide!
  refine ⟨?_, fun tab => ⟨h1 tab, h2 tab⟩, by decide!, fun tab => ⟨h3 tab, h4 tab⟩,
    ⟨by decide!, by decide!, by decide!, by decide!⟩,
    ⟨by decide!, by decide!, by decide!, by decide!⟩⟩
  rintro ⟨tab, h⟩
  rw [h1, h2] at h
  revert h
  decide

/-- C6. `addRetailerPoints` counts the runes of the name that are letters or
digits, every other rune adding nothing; `"M&M Corner Market"` gives 14. -/
theorem addRetailerPoints_counts_alphanumerics (tab : unicode.Tables) (s : String) :
    addRetailerPoints tab s
        = (s.toList.countP (fun r => unicode.IsLetter tab r || unicode.IsDigit tab r) : Int)
      ∧ addRetailerPoints tab "M&M Corner Market" = 14 := by
  refine ⟨?_, rfl⟩
  rw [addRetailerPoints_eq_countP]
  congr 2
  funext r
  exact Bool.or_comm _ _

/-- C7, as stated, fails: no choice of Unicode tables makes the retailer rule
give 8 points to `"Target"`. -/
theorem addRetailerPoints_target_ne_8 : ¬ ∃ tab, addRetailerPoints tab "Target" = 8 := by
  rintro ⟨tab, h⟩
  rw [addRetailerPoints_target] at h
  exact absurd h (by decide)

/-- C7, amended: the retailer name `"Target"` has six letters and scores 6
points. -/
theorem addRetailerPoints_target_eq_6 (tab : unicode.Tables) :
    addRetailerPoints tab "Target" = 6 :=
  addRetailerPoints_target tab

/-- C10, amended. `calculateItemDescription` returns the sum over the items
of `ceil(price * 0.02)` for the items whose trimmed description has a length
in bytes divisible by 3 (zero included) and of 0 for the others, the sum being
taken in Go's 64-bit `int`: it is the plain integer sum wrapped into the range
of an `int`, and the plain integer sum itself whenever that fits an `int`. An
all-blank description with price `"10.00"` gives 1. -/
theorem calculateItemDescription_eq_sum (items : List Items) :
    calculateItemDescription items = wrapInt64 ((items.map itemPoints).sum)
      ∧ (inInt64 ((items.map itemPoints).sum) →
          calculateItemDescription items = (items.map itemPoints).sum)
      ∧ calculateItemDescription [⟨"   ", "10.00"⟩] = 1 := by
  refine ⟨calculateItemDescription_eq_wrap items, fun h => ?_, by decide!⟩
  rw [calculateItemDescription_eq_wrap, wrapInt64_of_inInt64 h]

/-- C10 at the items of `sampleReceipt`: the sum of their points, 2, fits an
`int`, and `calculateItemDescription` returns it. -/
theorem calculateItemDescription_eq_sum_sample :
    inInt64 ((sampleReceipt.Items.map itemPoints).sum)
      ∧ calculateItemDescription sampleReceipt.Items = (sampleReceipt.Items.map itemPoints).sum
      ∧ (sampleReceipt.Items.map itemPoints).sum = 2 :=
  ⟨by decide!, (calculateItemDescription_eq_sum sampleReceipt.Items).2.1 (by decide!),
    by decide!⟩

/-- C10, as stated, fails: the price `"4e20"` parses without error, and an item
with that price and the description `"abc"` earns `ceil(4e20 * 0.02)`, that is
`8000000000000000000`. For two such items the sum is `16000000000000000000`,
which does not fit an `int`, and `calculateItemDescription` returns
`-2446744073709551616`. -/
theorem calculateItemDescription_ne_sum :
    (strconv.ParseFloat "4e20").2 = none
      ∧ itemPoints ⟨"abc", "4e20"⟩ = 8000000000000000000
      ∧ (([⟨"abc", "4e20"⟩, ⟨"abc", "4e20"⟩] : List Items).map itemPoints).sum
          = 16000000000000000000
      ∧ calculateItemDescription [⟨"abc", "4e20"⟩, ⟨"abc", "4e20"⟩] = -2446744073709551616
      ∧ calculateItemDescription [⟨"abc", "4e20"⟩, ⟨"abc", "4e20"⟩]
          ≠ (([⟨"abc", "4e20"⟩, ⟨"abc", "4e20"⟩] : List Items).map itemPoints).sum := by
  refine ⟨by decide!, by decide!, by decide!, by decide!, by decide!⟩

theorem calculatePoints_receiptWith (tab : unicode.Tables) (date time total : String) :
    calculatePoints tab (receiptWith date time total)
      = wrapInt64 ((if isRoundDollar (strconv.ParseFloat total).1 then 50 else 0)
          + (if isMultiple (strconv.ParseFloat total).1 then 25 else 0)
          + (if isOddDate date then 6 else 0)
          + (if isBetween2And4PM time then 10 else 0)) := by
  rw [calculatePoints_eq_wrap]
  have h1 : addRetailerPoints tab "" = 0 := rfl
  have h2 : calculateItemDescription [] = 0 := rfl
  simp only [rulesSum, receiptWith, h1, h2, List.length_nil]
  congr 1
  simp

/-- C3, the code against the claim: whenever `time.Parse` rejects the purchase
date, `isOddDate` reads the day of the zero `Time`, which is 1, and returns
true; so the empty string and `"not-a-date"` are odd dates and earn 6
points. -/
theorem isOddDate_unparsable_is_odd :
    (∀ s, (time.Parse time.layoutDate s).2 = true → isOddDate s = true)
      ∧ (time.Parse time.layoutDate "not-a-date").2 = true
      ∧ isOddDate "not-a-date" = true
      ∧ isOddDate "" = true
      ∧ ∀ tab, calculatePoints tab (receiptWith "not-a-date" "" "0.01") = 6 := by
  refine ⟨?_, by decide, by decide, by decide, fun tab => ?_⟩
  · intro s h
    unfold isOddDate
    simp only [Parse_error_zero h]
    decide
  · exact (calculatePoints_receiptWith tab _ _ _).trans (by decide!)

/-- C4, the code against the claim: a total that is not a number is read as
`0`, which is a round dollar amount and a multiple of 0.25, so both rules fire;
the malformed total `"abc"` scores 75 where the well-formed `"0.01"` scores
0. -/
theorem unparsable_total_scores_75 :
    (∀ s, (strconv.ParseFloat s).2 = some strconv.NumError.ErrSyntax →
        isRoundDollar (strconv.ParseFloat s).1 = true ∧ isMultiple (strconv.ParseFloat s).1 = true)
      ∧ (strconv.ParseFloat "abc").2 = some strconv.NumError.ErrSyntax
      ∧ (strconv.ParseFloat "").2 = some strconv.NumError.ErrSyntax
      ∧ (∀ tab, calculatePoints tab (receiptWith "2022-01-02" "" "abc") = 75)
      ∧ (∀ tab, calculatePoints tab (receiptWith "2022-01-02" "" "") = 75)
      ∧ ∀ tab, calculatePoints tab (receiptWith "2022-01-02" "" "0.01") = 0 := by
  refine ⟨?_, by decide!, by decide!, fun tab => ?_, fun tab => ?_, fun tab => ?_⟩
  · intro s h
    rw [ParseFloat_syntax_value h]
    exact ⟨by decide!, by decide!⟩
  · exact (calculatePoints_receiptWith tab _ _ _).trans (by decide!)
  · exact (calculatePoints_receiptWith tab _ _ _).trans (by decide!)
  · exact (calculatePoints_receiptWith tab _ _ _).trans (by decide!)

/-! ## Bounds on the item rule -/

theorem mul_c0_02_bounds {n : Int} (h0 : 0 ≤ n) (h1 : n ≤ 10 ^ 9 * F64.one) :
    ∃ n', F64.mul (F64.fin n) F64.c0_02 = F64.fin n' ∧ 0 ≤ n' ∧ n' ≤ 2 ^ 25 * F64.one := by
  have hc : ((5764607523034235 : Int) * 2 ^ 1016).natAbs = 5764607523034235 * 2 ^ 1016 := by
    have h5 : (5764607523034235 : Int).natAbs = 5764607523034235 := rfl
    have h2 : (2 : Int).natAbs = 2 := rfl
    rw [Int.natAbs_mul, Int.natAbs_pow, h5, h2]
  have hcpos : decide ((5764607523034235 : Int) * 2 ^ 1016 < 0) = false := by
    have : (0 : Int) < 2 ^ 1016 := pow_pos (by decide) 1016
    exact decide_eq_false (by omega)
  have hn : decide (n < 0) = false := decide_eq_false (by omega)
  have hA : n.natAbs ≤ 10 ^ 9 * 2 ^ 1074 := by
    rw [F64.one_eq_cast] at h1
    have h2 : ((n.natAbs : Nat) : Int) ≤ ((10 ^ 9 * 2 ^ 1074 : Nat) : Int) := by
      rw [Nat.cast_mul]
      have : (n.natAbs : Int) = n := by omega
      rw [this]
      exact h1
    exact Int.ofNat_le.1 h2
  have hle : n.natAbs * (5764607523034235 * 2 ^ 1016) * 2 ^ 1074 ≤ 1 * 2 ^ 1099 * 2 ^ 2148 := by
    have e1 : (2 : Nat) ^ 1099 = 2 ^ 83 * 2 ^ 1016 := by rw [← Nat.pow_add]
    have e2 : (2 : Nat) ^ 2148 = 2 ^ 1074 * 2 ^ 1074 := by rw [← Nat.pow_add]
    have e3 : 10 ^ 9 * 5764607523034235 ≤ 2 ^ 83 := by decide
    calc n.natAbs * (5764607523034235 * 2 ^ 1016) * 2 ^ 1074
        ≤ (10 ^ 9 * 2 ^ 1074) * (5764607523034235 * 2 ^ 1016) * 2 ^ 1074 :=
          Nat.mul_le_mul_right _ (Nat.mul_le_mul_right _ hA)
      _ = (10 ^ 9 * 5764607523034235) * (2 ^ 1016 * (2 ^ 1074 * 2 ^ 1074)) := by ring
      _ ≤ 2 ^ 83 * (2 ^ 1016 * (2 ^ 1074 * 2 ^ 1074)) := Nat.mul_le_mul_right _ e3
      _ = 1 * 2 ^ 1099 * 2 ^ 2148 := by rw [e1, e2]; ring
  have hr := roundScaled_le (m := 1) (w := 1099) (by positivity) (by norm_num) hle
  rw [Nat.one_mul] at hr
  have hlt : ¬ 2 ^ 2098 ≤ roundScaled (n.natAbs * (5764607523034235 * 2 ^ 1016)) (2 ^ 2148) := by
    have : (2 : Nat) ^ 1099 < 2 ^ 2098 := Nat.pow_lt_pow_right (by decide) (by decide)
    omega
  refine ⟨(roundScaled (n.natAbs * (5764607523034235 * 2 ^ 1016)) (2 ^ 2148) : Nat), ?_,
    Int.ofNat_nonneg _, ?_⟩
  · unfold F64.c0_02
    simp only [F64.mul, F64.round, hc, hcpos, hn, if_neg hlt]
    rfl
  · rw [F64.one_eq_cast]
    have e1 : (2 : Nat) ^ 1099 = 2 ^ 25 * 2 ^ 1074 := by rw [← Nat.pow_add]
    rw [e1] at hr
    have := Int.ofNat_le.2 hr
    rw [Nat.cast_mul] at this
    exact this

theorem ceil_toInt_bounds {n B : Int} (h0 : 0 ≤ n) (h1 : n ≤ B * F64.one) (hB : B < 2 ^ 63) :
    0 ≤ F64.toInt (math.Ceil (F64.fin n)) ∧ F64.toInt (math.Ceil (F64.fin n)) ≤ B := by
  have hone := F64.one_pos
  have hup : (-n) / F64.one < 1 := Int.ediv_lt_of_lt_mul hone (by omega)
  have hlo : -B ≤ (-n) / F64.one := Int.le_ediv_of_mul_le hone (by rw [Int.neg_mul]; omega)
  have hin : inInt64 (-((-n) / F64.one)) := by
    unfold inInt64
    constructor <;> omega
  simp only [math.Ceil]
  rw [F64.toInt_whole hin]
  constructor <;> omega

theorem itemPoints_bounds {item : Items}
    (h : F64.between 0 (10 ^ 9) (strconv.ParseFloat item.Price).1) :
    0 ≤ itemPoints item ∧ itemPoints item ≤ 2 ^ 25 := by
  unfold itemPoints
  split_ifs
  · cases hp : (strconv.ParseFloat item.Price).1 with
    | fin n =>
      rw [hp] at h
      simp only [F64.between] at h
      obtain ⟨n', hmul, h0, h1⟩ := mul_c0_02_bounds (n := n) (by omega) h.2
      rw [hmul]
      exact ceil_toInt_bounds h0 h1 (by decide)
    | inf neg => rw [hp] at h; exact absurd h (by simp [F64.between])
    | nan => rw [hp] at h; exact absurd h (by simp [F64.between])
  · exact ⟨by decide, by decide⟩

theorem sum_itemPoints_bounds (items : List Items)
    (h : ∀ item ∈ items, F64.between 0 (10 ^ 9) (strconv.ParseFloat item.Price).1) :
    0 ≤ (items.map itemPoints).sum ∧ (items.map itemPoints).sum ≤ 2 ^ 25 * (items.length : Int) := by
  induction items with
  | nil => simp
  | cons it rest ih =>
    have hi := itemPoints_bounds (h it (List.mem_cons_self _ _))
    have hr := ih (fun item hm => h item (List.mem_cons_of_mem _ hm))
    simp only [List.map_cons, List.sum_cons, List.length_cons]
    push_cast
    constructor <;> omega

theorem addRetailerPoints_bounds (tab : unicode.Tables) (s : String) :
    0 ≤ addRetailerPoints tab s ∧ addRetailerPoints tab s ≤ (s.length : Int) := by
  rw [addRetailerPoints_eq_countP]
  have h := List.countP_le_length (p := fun r => unicode.IsDigit tab r || unicode.IsLetter tab r)
    (l := s.toList)
  have hl : s.toList.length = s.length := rfl
  constructor
  · exact Int.ofNat_nonneg _
  · rw [← hl]; exact Int.ofNat_le.2 h

/-- An item whose price is a syntax error contributes nothing, whatever its
description. -/
theorem itemPoints_syntax_error {item : Items}
    (h : (strconv.ParseFloat item.Price).2 = some strconv.NumError.ErrSyntax) :
    itemPoints item = 0 := by
  unfold itemPoints
  rw [ParseFloat_syntax_value h]
  split_ifs
  · decide!
  · rfl

/-- C5, the code against the claim. An item whose price is a syntax error is
skipped, as the claim says; but `"1e999"` also fails to parse (`ErrRange`), the
discarded error leaves `priceFloat` at `+Inf`, and the item contributes
`int(+Inf)`, here the smallest `int`, instead of 0. -/
theorem range_error_price_scores :
    (∀ xs ys bad, (strconv.ParseFloat bad.Price).2 = some strconv.NumError.ErrSyntax →
        calculateItemDescription (xs ++ [bad] ++ ys) = calculateItemDescription (xs ++ ys))
      ∧ strconv.ParseFloat "1e999" = (F64.inf false, some strconv.NumError.ErrRange)
      ∧ calculateItemDescription ([] ++ [⟨"abc", "1e999"⟩] ++ []) = -(2 ^ 63)
      ∧ calculateItemDescription ([] ++ []) = 0 := by
  refine ⟨?_, by decide!, by decide!, by decide!⟩
  intro xs ys bad h
  simp only [calculateItemDescription_eq_wrap, List.map_append, List.sum_append, List.map_cons,
    List.map_nil, List.sum_cons, List.sum_nil, itemPoints_syntax_error h]
  congr 1
  ring

/-- C9, as stated, fails: the totals `"2.01"` and `"0.001"` parse without
error to floats that are not multiples of 0.25, and `isMultiple` is true of
both (`2.01*100` is the float `200.99999999999997`, truncated to 200). -/
theorem isMultiple_not_quarter :
    (strconv.ParseFloat "2.01").2 = none
      ∧ F64.isQuarterMultiple (strconv.ParseFloat "2.01").1 = false
      ∧ isMultiple (strconv.ParseFloat "2.01").1 = true
      ∧ (strconv.ParseFloat "0.001").2 = none
      ∧ F64.isQuarterMultiple (strconv.ParseFloat "0.001").1 = false
      ∧ isMultiple (strconv.ParseFloat "0.001").1 = true := by
  refine ⟨by decide!, by decide!, by decide!, by decide!, by decide!, by decide!⟩

/-- C9, amended: `isMultiple` is true of every multiple `k * 0.25` of 0.25
with `25 * |k| < 2^53`. (The converse does not hold: the rule tests the
truncated float product `total*100`.) -/
theorem isMultiple_of_quarter (k : Int) (hk : k.natAbs * 25 < 2 ^ 53) :
    isMultiple (F64.fin (k * 2 ^ 1072)) = true := by
  have h2 : ((2 : Int) ^ 1072).natAbs = 2 ^ 1072 := by
    have : (2 : Int).natAbs = 2 := rfl
    rw [Int.natAbs_pow, this]
  have hm : (k * 2 ^ 1072).natAbs * 100 = (k.natAbs * 25) * 2 ^ 1074 := by
    rw [Int.natAbs_mul, h2]
    have : (2 : Nat) ^ 1074 = 2 ^ 1072 * 2 ^ 2 := by rw [← Nat.pow_add]
    rw [this]; ring
  have hin : inInt64 (k * 25) := by
    unfold inInt64
    have : (2 : Nat) ^ 53 = 9007199254740992 := by norm_num
    constructor <;> omega
  have hval : k * 2 ^ 1072 * 100 = (k * 25) * F64.one := by
    have : F64.one = 2 ^ 1072 * 2 ^ 2 := by unfold F64.one; rw [← pow_add]
    rw [this]; ring
  unfold isMultiple
  rw [F64.mul_c100_exact hk (by decide) hm, hval, F64.toInt_whole hin]
  simp [Int.tmod_eq_zero_of_dvd (show (25 : Int) ∣ k * 25 from ⟨k, by ring⟩)]

/-- C9, amended, at `k = 140`: the total `"35.00"` is `140 * 0.25`, and the
quarter-multiple rule fires on it. -/
theorem isMultiple_of_quarter_35 :
    (strconv.ParseFloat "35.00").1 = F64.fin (140 * 2 ^ 1072)
      ∧ (140 : Int).natAbs * 25 < 2 ^ 53
      ∧ isMultiple (F64.fin (140 * 2 ^ 1072)) = true :=
  ⟨by decide!, by decide, isMultiple_of_quarter 140 (by decide)⟩

/-! ## The handlers -/

/-- The id cut out of the path `/receipts/{id}/points` is `{id}`. -/
theorem trim_points_path (id : String) :
    strings.TrimSuffix (strings.TrimPrefix ("/receipts/" ++ id ++ "/points") "/receipts/") "/points"
      = id := by
  have h1 : strings.TrimPrefix ("/receipts/" ++ id ++ "/points") "/receipts/" = id ++ "/points" := by
    unfold strings.TrimPrefix
    have hp : ("/receipts/" : String).toList.isPrefixOf ("/receipts/" ++ id ++ "/points").toList
        = true := by
      rw [List.isPrefixOf_iff_prefix]
      simp only [String.toList, String.data_append, List.append_assoc]
      exact List.prefix_append _ _
    rw [if_pos hp]
    apply String.ext
    simp only [String.toList, String.data_append, List.append_assoc]
    exact List.drop_left _ _
  have h2 : strings.TrimSuffix (id ++ "/points") "/points" = id := by
    unfold strings.TrimSuffix
    have hs : ("/points" : String).toList.isSuffixOf (id ++ "/points").toList = true := by
      rw [List.isSuffixOf_iff_suffix]
      simp only [String.toList, String.data_append]
      exact List.suffix_append _ _
    rw [if_pos hs]
    apply String.ext
    simp only [String.toList, String.data_append, List.length_append, Nat.add_sub_cancel]
    exact List.take_left _ _
  rw [h1, h2]

theorem Store.get_set_self (m : Store) (id : String) (receipt : Receipt) :
    (m.set id receipt).get id = some receipt := by
  simp [Store.get, Store.set]

theorem Store.get_set_of_ne (m : Store) (id k : String) (receipt : Receipt) (h : k ≠ id) :
    (m.set id receipt).get k = m.get k := by
  simp [Store.get, Store.set, h]

/-- The points handler on a key that is present. -/
theorem pointsHandler_present (tab : unicode.Tables) (store : Store) (r : http.Request)
    (receipt : Receipt)
    (h : store.get (strings.TrimSuffix (strings.TrimPrefix r.Path "/receipts/") "/points")
      = some receipt) :
    processReceiptPointsHandler tab store r
      = (store, jsonReply { Points := calculatePoints tab receipt }) := by
  unfold processReceiptPointsHandler
  simp only [h]

/-- The points handler on a key that is absent. -/
theorem pointsHandler_absent (tab : unicode.Tables) (store : Store) (r : http.Request)
    (h : store.get (strings.TrimSuffix (strings.TrimPrefix r.Path "/receipts/") "/points") = none) :
    processReceiptPointsHandler tab store r
      = (store, http.Error "Receipt not found" http.StatusNotFound) := by
  unfold processReceiptPointsHandler
  simp only [h]

/-- The process handler on a POST whose body decodes. -/
theorem processHandler_decoded (unmarshal : String → Option Receipt) (uuid : String)
    (store : Store) (r : http.Request) (body : String) (receipt : Receipt)
    (hm : r.Method = "POST") (hb : r.Body = some body) (hd : unmarshal body = some receipt) :
    processReceiptHandler unmarshal uuid store r
      = (store.set uuid { receipt with ID := uuid }, jsonReply { ID := uuid }) := by
  unfold processReceiptHandler
  simp only [hm, hb, hd, http.MethodPost, ne_eq, not_true_eq_false, if_false]

/-- C14. A POST to the process route whose body decodes to a receipt `r`, with
a generated id `g` that is not yet a key of the store, is answered 200 with a
JSON body carrying the id `g`; the new store is the old one with the one entry
`g ↦ r` added, `r` with its `ID` set to `g` and its other fields as decoded,
and every entry stored before is unchanged. A following GET of
`/receipts/g/points` is answered 200 with `calculatePoints` of the stored
receipt. -/
theorem processReceiptHandler_stores_receipt (tab : unicode.Tables)
    (unmarshal : String → Option Receipt) (g : String) (store : Store) (req : http.Request)
    (body : String) (r : Receipt)
    (hm : req.Method = "POST") (hb : req.Body = some body) (hd : unmarshal body = some r)
    (hfresh : store.get g = none) :
    (processReceiptHandler unmarshal g store req).2.Status = 200
      ∧ (∃ members, (processReceiptHandler unmarshal g store req).2.Body = http.Content.json members
          ∧ ("id", json.Value.str g) ∈ members)
      ∧ (processReceiptHandler unmarshal g store req).1
          = store.set g ⟨g, r.Retailer, r.PurchasedDate, r.PurchasedTime, r.Total, r.Items⟩
      ∧ (processReceiptHandler unmarshal g store req).1.get g
          = some ⟨g, r.Retailer, r.PurchasedDate, r.PurchasedTime, r.Total, r.Items⟩
      ∧ (∀ k, k ≠ g → (processReceiptHandler unmarshal g store req).1.get k = store.get k)
      ∧ (∀ k rc, store.get k = some rc →
          (processReceiptHandler unmarshal g store req).1.get k = some rc)
      ∧ (processReceiptPointsHandler tab (processReceiptHandler unmarshal g store req).1
            (pointsRequest g)).2.Status = 200
      ∧ (processReceiptPointsHandler tab (processReceiptHandler unmarshal g store req).1
            (pointsRequest g)).2.Body
          = http.Content.json [("id", json.Value.str ""),
              ("points", json.Value.num (calculatePoints tab
                ⟨g, r.Retailer, r.PurchasedDate, r.PurchasedTime, r.Total, r.Items⟩))] := by
  rw [processHandler_decoded unmarshal g store req body r hm hb hd]
  have hget : (store.set g ⟨g, r.Retailer, r.PurchasedDate, r.PurchasedTime, r.Total, r.Items⟩).get
      (strings.TrimSuffix (strings.TrimPrefix (pointsRequest g).Path "/receipts/") "/points")
      = some ⟨g, r.Retailer, r.PurchasedDate, r.PurchasedTime, r.Total, r.Items⟩ := by
    simp only [pointsRequest, trim_points_path]
    exact Store.get_set_self _ _ _
  refine ⟨rfl, ⟨_, rfl, by simp [Response.encode]⟩, rfl, Store.get_set_self _ _ _,
    fun k hk => Store.get_set_of_ne _ _ _ _ hk, fun k rc hk => ?_, ?_, ?_⟩
  · have hne : k ≠ g := by
      intro he
      rw [he, hfresh] at hk
      exact absurd hk (by simp)
    rw [Store.get_set_of_ne _ _ _ _ hne, hk]
  · simp only [pointsHandler_present tab _ _ _ hget]
    rfl
  · simp only [pointsHandler_present tab _ _ _ hget]
    rfl

/-- C14 at a concrete request: `POST /receipts/process` with body `{}` on the
empty store, with the generated id `"7fb1377b"`. -/
theorem processReceiptHandler_stores_sample :
    (unmarshalEmptyObject "{}" = some ⟨"", "", "", "", "", []⟩ ∧ Store.empty.get "7fb1377b" = none)
      ∧ ¬ ∃ tab, (processReceiptPointsHandler tab
          (processReceiptHandler unmarshalEmptyObject "7fb1377b" Store.empty
            ⟨"POST", "/receipts/process", some "{}"⟩).1 (pointsRequest "7fb1377b")).2.Status
          ≠ 200 := by
  refine ⟨⟨rfl, rfl⟩, ?_⟩
  rintro ⟨tab, h⟩
  exact h (processReceiptHandler_stores_receipt tab unmarshalEmptyObject "7fb1377b" Store.empty
    ⟨"POST", "/receipts/process", some "{}"⟩ "{}" ⟨"", "", "", "", "", []⟩ rfl rfl rfl rfl).2.2.2.2.2.2.1

/-- C15. The points handler answers 404 exactly when the id of the path is not
a key of the store. It never changes the store, so no entry is made for an
unknown id, whose reply is the plain text `Receipt not found`; for a known id
it answers 200 with the points `calculatePoints` gives the stored receipt. -/
theorem processReceiptPointsHandler_404_iff_absent (tab : unicode.Tables) (store : Store)
    (req : http.Request) :
    ((processReceiptPointsHandler tab store req).2.Status = 404
        ↔ store.get (strings.TrimSuffix (strings.TrimPrefix req.Path "/receipts/") "/points") = none)
      ∧ (processReceiptPointsHandler tab store req).1 = store
      ∧ (store.get (strings.TrimSuffix (strings.TrimPrefix req.Path "/receipts/") "/points") = none →
          (processReceiptPointsHandler tab store req).2.Body
            = http.Content.text "Receipt not found\n")
      ∧ ∀ rc, store.get (strings.TrimSuffix (strings.TrimPrefix req.Path "/receipts/") "/points")
            = some rc →
          (processReceiptPointsHandler tab store req).2.Status = 200
            ∧ ("points", json.Value.num (calculatePoints tab rc))
                ∈ Response.encode { Points := calculatePoints tab rc }
            ∧ (processReceiptPointsHandler tab store req).2.Body
                = http.Content.json (Response.encode { Points := calculatePoints tab rc }) := by
  cases hg : store.get (strings.TrimSuffix (strings.TrimPrefix req.Path "/receipts/") "/points") with
  | none =>
    rw [pointsHandler_absent tab store req hg]
    refine ⟨⟨fun _ => rfl, fun _ => rfl⟩, rfl, fun _ => rfl, fun rc h => absurd h (by simp)⟩
  | some rc =>
    rw [pointsHandler_present tab store req rc hg]
    refine ⟨⟨fun h => by simp [jsonReply, http.StatusOK] at h, fun h => absurd h (by simp)⟩, rfl,
      fun h => absurd h (by simp), fun rc' h => ?_⟩
    have hrc : rc = rc' := Option.some.inj h
    subst hrc
    exact ⟨rfl, by simp [Response.encode], rfl⟩

/-- C16. On the process route a method other than POST is answered 405, and a
POST whose body cannot be read, or does not decode into a `Receipt`, is
answered 400; in all three cases the store is left as it was. -/
theorem processReceiptHandler_rejects (unmarshal : String → Option Receipt) (uuid : String)
    (store : Store) (req : http.Request) :
    (req.Method ≠ "POST" →
        (processReceiptHandler unmarshal uuid store req).2.Status = 405
          ∧ (processReceiptHandler unmarshal uuid store req).1 = store)
      ∧ (req.Method = "POST" → req.Body = none →
        (processReceiptHandler unmarshal uuid store req).2.Status = 400
          ∧ (processReceiptHandler unmarshal uuid store req).1 = store)
      ∧ (req.Method = "POST" → ∀ body, req.Body = some body → unmarshal body = none →
        (processReceiptHandler unmarshal uuid store req).2.Status = 400
          ∧ (processReceiptHandler unmarshal uuid store req).1 = store) := by
  refine ⟨fun hm => ?_, fun hm hb => ?_, fun hm body hb hd => ?_⟩
  · unfold processReceiptHandler
    rw [if_pos (by simpa [http.MethodPost] using hm)]
    exact ⟨rfl, rfl⟩
  · unfold processReceiptHandler
    simp only [hm, hb, http.MethodPost, ne_eq, not_true_eq_false, if_false]
    exact ⟨rfl, trivial⟩
  · unfold processReceiptHandler
    simp only [hm, hb, hd, http.MethodPost, ne_eq, not_true_eq_false, if_false]
    exact ⟨rfl, trivial⟩

/-- C16 at concrete requests on the empty store: a GET of the process route is
answered 405, a POST with an unreadable body 400, and a POST with the body
`not json` 400. -/
theorem processReceiptHandler_rejects_sample :
    (processReceiptHandler unmarshalEmptyObject "7fb1377b" Store.empty
        ⟨"GET", "/receipts/process", some ""⟩).2.Status = 405
      ∧ (processReceiptHandler unmarshalEmptyObject "7fb1377b" Store.empty
        ⟨"POST", "/receipts/process", none⟩).2.Status = 400
      ∧ (processReceiptHandler unmarshalEmptyObject "7fb1377b" Store.empty
        ⟨"POST", "/receipts/process", some "not json"⟩).2.Status = 400 :=
  ⟨((processReceiptHandler_rejects unmarshalEmptyObject "7fb1377b" Store.empty
      ⟨"GET", "/receipts/process", some ""⟩).1 (by decide)).1,
    ((processReceiptHandler_rejects unmarshalEmptyObject "7fb1377b" Store.empty
      ⟨"POST", "/receipts/process", none⟩).2.1 rfl rfl).1,
    ((processReceiptHandler_rejects unmarshalEmptyObject "7fb1377b" Store.empty
      ⟨"POST", "/receipts/process", some "not json"⟩).2.2 rfl "not json" rfl rfl).1⟩

/-- C17. A GET of a receipt's points leaves the store as it was; hence after
any number of GETs the store is still the first one, and the same request gets
the same reply: the same status and the same points. -/
theorem processReceiptPointsHandler_reads_only (tab : unicode.Tables) (store : Store)
    (req : http.Request) :
    (processReceiptPointsHandler tab store req).1 = store
      ∧ (∀ n, (fun s => (processReceiptPointsHandler tab s req).1)^[n] store = store)
      ∧ ∀ n, processReceiptPointsHandler tab
            ((fun s => (processReceiptPointsHandler tab s req).1)^[n] store) req
          = processReceiptPointsHandler tab store req := by
  have h1 : ∀ s, (processReceiptPointsHandler tab s req).1 = s := by
    intro s
    unfold processReceiptPointsHandler
    simp only []
    split <;> rfl
  have h2 : ∀ n, (fun s => (processReceiptPointsHandler tab s req).1)^[n] store = store := by
    intro n
    induction n with
    | zero => rfl
    | succ n ih => rw [Function.iterate_succ_apply', ih, h1]
  exact ⟨h1 store, h2, fun n => by rw [h2 n]⟩

/-- C18, as stated, fails: the reply to `POST /receipts/process` with body
`{}` has two members, `"id"` and `"points"` (`{"id":"7fb1377b","points":0}`),
and the reply to a following GET of the points has the same two members. -/
theorem success_body_has_two_members :
    (processReceiptHandler unmarshalEmptyObject "7fb1377b" Store.empty
        ⟨"POST", "/receipts/process", some "{}"⟩).2
      = ⟨200, "application/json",
          http.Content.json [("id", json.Value.str "7fb1377b"), ("points", json.Value.num 0)]⟩
      ∧ ∀ tab, (processReceiptPointsHandler tab
            (processReceiptHandler unmarshalEmptyObject "7fb1377b" Store.empty
              ⟨"POST", "/receipts/process", some "{}"⟩).1
            (pointsRequest "7fb1377b")).2.Body.memberNames = ["id", "points"] := by
  have hp := processHandler_decoded unmarshalEmptyObject "7fb1377b" Store.empty
    ⟨"POST", "/receipts/process", some "{}"⟩ "{}" ⟨"", "", "", "", "", []⟩ rfl rfl rfl
  refine ⟨by rw [hp]; rfl, fun tab => ?_⟩
  rw [hp, pointsHandler_present tab _ _ ⟨"7fb1377b", "", "", "", "", []⟩
    (by simp only [pointsRequest, trim_points_path]; exact Store.get_set_self _ _ _)]
  rfl

/-- C18, amended: the JSON object of a successful POST has the two members
`"id"`, the generated id, and `"points"`, 0; the JSON object of a successful
GET of points has the two members `"id"`, the empty string, and `"points"`,
the points of the stored receipt. -/
theorem success_bodies :
    (∀ unmarshal uuid store req body r, req.Method = "POST" → req.Body = some body →
        unmarshal body = some r →
        (processReceiptHandler unmarshal uuid store req).2.Body
          = http.Content.json [("id", json.Value.str uuid), ("points", json.Value.num 0)])
      ∧ ∀ tab store req rc,
        store.get (strings.TrimSuffix (strings.TrimPrefix req.Path "/receipts/") "/points")
            = some rc →
        (processReceiptPointsHandler tab store req).2.Body
          = http.Content.json [("id", json.Value.str ""),
              ("points", json.Value.num (calculatePoints tab rc))] := by
  refine ⟨fun unmarshal uuid store req body r hm hb hd => ?_, fun tab store req rc h => ?_⟩
  · rw [processHandler_decoded unmarshal uuid store req body r hm hb hd]
    rfl
  · rw [pointsHandler_present tab store req rc h]
    rfl

/-- C18, amended, at the POST of `{}` on the empty store: the body has the
members `"id"` and `"points"`. -/
theorem success_bodies_sample :
    unmarshalEmptyObject "{}" = some ⟨"", "", "", "", "", []⟩
      ∧ (processReceiptHandler unmarshalEmptyObject "7fb1377b" Store.empty
          ⟨"POST", "/receipts/process", some "{}"⟩).2.Body
        = http.Content.json [("id", json.Value.str "7fb1377b"), ("points", json.Value.num 0)] :=
  ⟨rfl, success_bodies.1 unmarshalEmptyObject "7fb1377b" Store.empty
    ⟨"POST", "/receipts/process", some "{}"⟩ "{}" ⟨"", "", "", "", "", []⟩ rfl rfl rfl⟩

/-- C13. The item-count rule adds `5 * floor(n / 2)` for a receipt of `n`
items: `calculatePoints` is the sum, in Go's `int`, of that amount and of the
other rules. Receipts of `2k` and of `2k + 1` items get the same `5k` (10 for
4 and for 5 items, 0 for 1 item), and the amount depends on the number of
items only, not on their descriptions or prices. -/
theorem itemCount_rule :
    (∀ tab r, calculatePoints tab r = wrapInt64 (otherRulesSum tab r + itemCountPoints r.Items))
      ∧ (∀ items : List Items, itemCountPoints items = 5 * ((items.length / 2 : Nat) : Int))
      ∧ (∀ (items : List Items) k, items.length = 2 * k ∨ items.length = 2 * k + 1 →
          itemCountPoints items = 5 * (k : Int))
      ∧ (∀ items items' : List Items, items.length = items'.length →
          itemCountPoints items = itemCountPoints items')
      ∧ (∀ items : List Items, items.length = 4 → itemCountPoints items = 10)
      ∧ (∀ items : List Items, items.length = 5 → itemCountPoints items = 10)
      ∧ (∀ items : List Items, items.length = 1 → itemCountPoints items = 0) := by
  have hk : ∀ (items : List Items) k, items.length = 2 * k ∨ items.length = 2 * k + 1 →
      itemCountPoints items = 5 * (k : Int) := by
    intro items k h
    unfold itemCountPoints
    omega
  refine ⟨fun tab r => ?_, fun items => ?_, hk, fun items items' h => ?_, fun items h => ?_,
    fun items h => ?_, fun items h => ?_⟩
  · rw [calculatePoints_eq_wrap]
    congr 1
    simp only [rulesSum, otherRulesSum, itemCountPoints]
    ring
  · unfold itemCountPoints
    omega
  · unfold itemCountPoints
    rw [h]
  · exact hk items 2 (Or.inl h)
  · exact hk items 2 (Or.inr h)
  · exact hk items 0 (Or.inr h)

/-- C13 at `sampleReceipt`, which has five items: the item-count rule
gives 10. -/
theorem itemCount_rule_sample :
    sampleReceipt.Items.length = 5 ∧ itemCountPoints sampleReceipt.Items = 10 :=
  ⟨rfl, itemCount_rule.2.2.2.2.2.1 sampleReceipt.Items rfl⟩

/-- C19. The length that `calculateItemDescription` tests is the number of
UTF-8 bytes of the trimmed description: an item whose trimmed description has
a byte length not divisible by 3 earns nothing, wherever it stands in the
list. -/
theorem byte_length_decides (item : Items)
    (h : Int.tmod (len (strings.TrimSpace item.ShortDescription)) 3 ≠ 0) :
    calculateItemDescription [item] = 0
      ∧ ∀ xs ys, calculateItemDescription (xs ++ [item] ++ ys) = calculateItemDescription (xs ++ ys) := by
  have hi : itemPoints item = 0 := by
    unfold itemPoints
    rw [if_neg h]
  refine ⟨?_, fun xs ys => ?_⟩
  · rw [calculateItemDescription_eq_wrap]
    simp only [List.map_cons, List.map_nil, List.sum_cons, List.sum_nil, hi]
    decide
  · simp only [calculateItemDescription_eq_wrap, List.map_append, List.sum_append, List.map_cons,
      List.map_nil, List.sum_cons, List.sum_nil, hi]
    congr 1
    ring

/-- C19 at the description `"abé"`: three characters, four bytes. With price
`"100.00"` it earns 0, while the three-byte `"abc"` earns 2. -/
theorem byte_length_decides_sample :
    (strings.TrimSpace "abé").length = 3
      ∧ len (strings.TrimSpace "abé") = 4
      ∧ Int.tmod (len (strings.TrimSpace "abé")) 3 ≠ 0
      ∧ calculateItemDescription [⟨"abé", "100.00"⟩] = 0
      ∧ calculateItemDescription [⟨"abc", "100.00"⟩] = 2 :=
  ⟨by decide!, by decide!, by decide!, (byte_length_decides ⟨"abé", "100.00"⟩ (by decide!)).1,
    by decide!⟩

/-! ## `time.Parse` on well-formed input -/

theorem isDigit_digitChar (n : Nat) : time.isDigit (digitChar n) = true := by
  unfold digitChar
  have h : n % 10 < 10 := Nat.mod_lt _ (by decide)
  generalize n % 10 = k at h
  interval_cases k <;> decide

theorem digitVal_digitChar (n : Nat) : time.digitVal (digitChar n) = ((n % 10 : Nat) : Int) := by
  unfold digitChar
  have h : n % 10 < 10 := Nat.mod_lt _ (by decide)
  generalize n % 10 = k at h
  interval_cases k <;> decide

/-- A well-formed date parses to its year, month and day. -/
theorem Parse_dateString (y m d : Nat) (hy : y < 10000) (hm1 : 1 ≤ m) (hm2 : m ≤ 12)
    (hd1 : 1 ≤ d) (hd2 : (d : Int) ≤ time.daysIn m y) :
    time.Parse time.layoutDate (dateString y m d) = (⟨y, m, d, 0, 0⟩, false) := by
  have hd3 : d ≤ 31 := by
    have : time.daysIn m y ≤ 31 := by
      unfold time.daysIn
      split_ifs <;> omega
    omega
  have eY : ((y / 1000 % 10 : Nat) : Int) * 1000 + ((y / 100 % 10 : Nat) : Int) * 100
      + ((y / 10 % 10 : Nat) : Int) * 10 + ((y % 10 : Nat) : Int) = y := by omega
  have eM : ((m / 10 % 10 : Nat) : Int) * 10 + ((m % 10 : Nat) : Int) = m := by omega
  have eD : ((d / 10 % 10 : Nat) : Int) * 10 + ((d % 10 : Nat) : Int) = d := by omega
  have hdge : ¬ ((d : Int) < 1) := by omega
  have hmle : ¬ ((m : Int) ≤ 0 ∨ 12 < (m : Int)) := by omega
  have hmneg : ¬ ((m : Int) < 0) := by omega
  have hdneg : ¬ ((d : Int) < 0) := by omega
  have hdok : ¬ ((d : Int) < 1 ∨ (d : Int) > time.daysIn m y) := by omega
  simp only [time.Parse, time.layoutDate, dateString, twoDigits, String.toList, List.cons_append,
    List.nil_append, time.parseChunks, time.parseChunk, time.getnum, isDigit_digitChar,
    digitVal_digitChar, Bool.and_self, Bool.not_true, Bool.false_eq_true, if_true, if_false, eY, eM,
    eD, hmle, hmneg, hdneg, hdok]

/-- A well-formed time of day parses to its hour and minute. -/
theorem Parse_clockString (h m : Nat) (hh : h < 24) (hm : m < 60) :
    time.Parse time.layoutClock (clockString h m) = (⟨0, 1, 1, h, m⟩, false) := by
  have eH : ((h / 10 % 10 : Nat) : Int) * 10 + ((h % 10 : Nat) : Int) = h := by omega
  have eM : ((m / 10 % 10 : Nat) : Int) * 10 + ((m % 10 : Nat) : Int) = m := by omega
  have hhr : ¬ ((h : Int) < 0 ∨ 24 ≤ (h : Int)) := by omega
  have hmr : ¬ ((m : Int) < 0 ∨ 60 ≤ (m : Int)) := by omega
  have hday : ¬ ((1 : Int) < 1 ∨ (1 : Int) > time.daysIn 1 0) := by decide
  simp only [time.Parse, time.layoutClock, clockString, twoDigits, String.toList, List.cons_append,
    List.nil_append, time.parseChunks, time.parseChunk, time.getnum, isDigit_digitChar,
    digitVal_digitChar, Bool.and_self, Bool.not_true, Bool.false_eq_true, if_true, if_false, eH, eM,
    hhr, hmr]
  simp only [show ((-1 : Int) < 0) from by decide, if_true, hday, if_false]

theorem isOddDate_dateString (y m d : Nat) (hy : y < 10000) (hm1 : 1 ≤ m) (hm2 : m ≤ 12)
    (hd1 : 1 ≤ d) (hd2 : (d : Int) ≤ time.daysIn m y) :
    (isOddDate (dateString y m d) = true ↔ d % 2 = 1) := by
  unfold isOddDate
  simp only [Parse_dateString y m d hy hm1 hm2 hd1 hd2, time.Time.Day]
  rw [Int.tmod_eq_emod (by omega) (by decide)]
  simp only [bne_iff_ne, ne_eq]
  omega

/-- C11. For every valid calendar date written `YYYY-MM-DD` (year `y`, month
`m` from 1 to 12, day `d` from 1 to the length of the month), `isOddDate` is
true exactly when the day of the month is odd, whatever the year and the
month. So `"2022-01-01"` is odd and the rule adds 6, and `"2022-01-02"` is
even and the rule adds nothing. -/
theorem isOddDate_iff_day_odd :
    (∀ y m d : Nat, y < 10000 → 1 ≤ m → m ≤ 12 → 1 ≤ d → (d : Int) ≤ time.daysIn m y →
        (isOddDate (dateString y m d) = true ↔ d % 2 = 1))
      ∧ isOddDate "2022-01-01" = true
      ∧ isOddDate "2022-01-02" = false
      ∧ (∀ tab, calculatePoints tab (receiptWith "2022-01-01" "" "0.01") = 6)
      ∧ ∀ tab, calculatePoints tab (receiptWith "2022-01-02" "" "0.01") = 0 := by
  refine ⟨isOddDate_dateString, by decide, by decide, fun tab => ?_, fun tab => ?_⟩
  · exact (calculatePoints_receiptWith tab _ _ _).trans (by decide!)
  · exact (calculatePoints_receiptWith tab _ _ _).trans (by decide!)

/-- C11 at the first day of 2022: `"2022-01-01"` is the valid date of year
2022, month 1 and day 1, the day is odd, and `isOddDate` is true. -/
theorem isOddDate_new_year :
    dateString 2022 1 1 = "2022-01-01"
      ∧ ((1 : Nat) : Int) ≤ time.daysIn (1 : Nat) (2022 : Nat)
      ∧ isOddDate (dateString 2022 1 1) = true :=
  ⟨by decide, by decide,
    (isOddDate_iff_day_odd.1 2022 1 1 (by decide) (by decide) (by decide) (by decide)
      (by decide)).2 (by decide)⟩

theorem digit_cases (a : Char) (ha : time.isDigit a = true) :
    ∃ k, k < 10 ∧ a = digitChar k ∧ time.digitVal a = (k : Int) := by
  unfold time.isDigit at ha
  have h := of_decide_eq_true ha
  have h1 : 48 ≤ a.toNat := h.1
  have h2 : a.toNat ≤ 57 := h.2
  refine ⟨a.toNat - 48, by omega, ?_, rfl⟩
  unfold digitChar
  have e : 48 + (a.toNat - 48) % 10 = a.toNat := by omega
  rw [e, Char.ofNat_toNat]

theorem getnum_fixed {l rest : List Char} {v : Int} (h : time.getnum l true = some (v, rest)) :
    ∃ j k, j < 10 ∧ k < 10 ∧ l = digitChar j :: digitChar k :: rest ∧ v = (j : Int) * 10 + k := by
  rcases l with _ | ⟨a, _ | ⟨b, r⟩⟩
  · simp [time.getnum] at h
  · simp [time.getnum] at h
  · unfold time.getnum at h
    by_cases ha : time.isDigit a = true
    · by_cases hb : time.isDigit b = true
      · simp only [ha, hb, Bool.not_true, Bool.false_eq_true, if_false, Option.some.injEq,
          Prod.mk.injEq] at h
        obtain ⟨j, hj, rfl, ej⟩ := digit_cases a ha
        obtain ⟨k, hk, rfl, ek⟩ := digit_cases b hb
        exact ⟨j, k, hj, hk, by rw [h.2], by rw [← h.1, ej, ek]⟩
      · simp [ha, hb] at h
    · simp [ha] at h

theorem getnum_free {l rest : List Char} {v : Int} (h : time.getnum l false = some (v, rest)) :
    (∃ j k, j < 10 ∧ k < 10 ∧ l = digitChar j :: digitChar k :: rest ∧ v = (j : Int) * 10 + k)
      ∨ v ≤ 9 := by
  rcases l with _ | ⟨a, _ | ⟨b, r⟩⟩
  · simp [time.getnum] at h
  · unfold time.getnum at h
    by_cases ha : time.isDigit a = true
    · simp only [ha, Bool.not_true, Bool.or_false, Bool.false_eq_true, if_false,
        Option.some.injEq, Prod.mk.injEq] at h
      obtain ⟨j, hj, -, ej⟩ := digit_cases a ha
      right
      rw [← h.1, ej]
      omega
    · simp [ha] at h
  · unfold time.getnum at h
    by_cases ha : time.isDigit a = true
    · by_cases hb : time.isDigit b = true
      · simp only [ha, hb, Bool.not_true, Bool.false_eq_true, if_false, Option.some.injEq,
          Prod.mk.injEq] at h
        obtain ⟨j, hj, rfl, ej⟩ := digit_cases a ha
        obtain ⟨k, hk, rfl, ek⟩ := digit_cases b hb
        exact Or.inl ⟨j, k, hj, hk, by rw [h.2], by rw [← h.1, ej, ek]⟩
      · simp only [ha, hb, Bool.not_true, Bool.false_eq_true, if_false, Bool.not_false, if_true,
          Option.some.injEq, Prod.mk.injEq] at h
        obtain ⟨j, hj, -, ej⟩ := digit_cases a ha
        right
        rw [← h.1, ej]
        omega
    · simp [ha] at h

/-- A string on which `isBetween2And4PM` is true is a two-digit hour 14 or 15,
a colon and a two-digit minute. -/
theorem clockString_of_isBetween2And4PM (s : String) (h : isBetween2And4PM s = true) :
    ∃ hr mn, (hr = 14 ∨ hr = 15) ∧ mn < 60 ∧ s = clockString hr mn := by
  unfold isBetween2And4PM time.Parse at h
  simp only [time.layoutClock, time.parseChunks, time.parseChunk] at h
  simp only [String.toList] at h
  cases h1 : time.getnum s.data false with
  | none => simp [h1] at h
  | some p1 =>
    obtain ⟨hour, rest1⟩ := p1
    simp only [h1] at h
    by_cases hr : hour < 0 ∨ 24 ≤ hour
    · simp [hr] at h
    · simp only [hr, if_false] at h
      rcases rest1 with _ | ⟨c, rest2⟩
      · simp at h
      · by_cases hc : c = ':'
        · subst hc
          simp only [if_true] at h
          cases h2 : time.getnum rest2 true with
          | none => simp [h2] at h
          | some p2 =>
            obtain ⟨mn, rest3⟩ := p2
            simp only [h2] at h
            by_cases hmr : mn < 0 ∨ 60 ≤ mn
            · simp [hmr] at h
            · simp only [hmr, if_false] at h
              by_cases hrest : rest3 = []
              · subst hrest
                simp only [if_true] at h
                have hday : ¬ ((1 : Int) < 1 ∨ (1 : Int) > time.daysIn 1 0) := by decide
                simp only [show ((-1 : Int) < 0) from by decide, if_true, hday, if_false,
                  time.Time.Hour, decide_eq_true_eq] at h
                obtain ⟨j2, k2, hj2, hk2, e2, ev2⟩ := getnum_fixed h2
                rcases getnum_free h1 with ⟨j1, k1, hj1, hk1, e1, ev1⟩ | hle
                · refine ⟨j1 * 10 + k1, j2 * 10 + k2, by omega, by omega, ?_⟩
                  apply String.ext
                  have ea : (j1 * 10 + k1) / 10 = j1 := by omega
                  have eb : digitChar (j1 * 10 + k1) = digitChar k1 := by
                    unfold digitChar
                    congr 2
                    omega
                  have ec : (j2 * 10 + k2) / 10 = j2 := by omega
                  have ed : digitChar (j2 * 10 + k2) = digitChar k2 := by
                    unfold digitChar
                    congr 2
                    omega
                  simp only [clockString, twoDigits, ea, eb, ec, ed, List.cons_append,
                    List.nil_append]
                  rw [e1, e2]
                · omega
              · simp [hrest] at h
        · simp [hc] at h

theorem isBetween2And4PM_clockString (h m : Nat) (hh : h < 24) (hm : m < 60) :
    isBetween2And4PM (clockString h m) = decide (14 ≤ h ∧ h < 16) := by
  unfold isBetween2And4PM
  simp only [Parse_clockString h m hh hm, time.Time.Hour]
  by_cases h1 : 14 ≤ h ∧ h < 16
  · have h2 : (h : Int) ≥ 14 ∧ (h : Int) < 16 := by omega
    simp only [h1, h2, and_self, decide_True]
  · have h2 : ¬ ((h : Int) ≥ 14 ∧ (h : Int) < 16) := by omega
    simp only [h1, h2, decide_False]

/-- C12. `isBetween2And4PM` is true exactly of the strings `14:MM` and `15:MM`
with a minute from 00 to 59: exactly when the string parses as a time of day
with an hour of 14 or 15, the minute being irrelevant. It is false of every
time with another hour and of every string that does not parse. `"14:33"` and
`"14:00"` are inside, `"16:00"` and `"13:59"` outside. -/
theorem isBetween2And4PM_iff :
    (∀ s, isBetween2And4PM s = true
        ↔ ∃ h m, (h = 14 ∨ h = 15) ∧ m < 60 ∧ s = clockString h m)
      ∧ (∀ s, isBetween2And4PM s = true
        ↔ (time.Parse time.layoutClock s).2 = false
          ∧ 14 ≤ (time.Parse time.layoutClock s).1.Hour
          ∧ (time.Parse time.layoutClock s).1.Hour < 16)
      ∧ (∀ h m, h < 24 → m < 60 → h < 14 ∨ 16 ≤ h → isBetween2And4PM (clockString h m) = false)
      ∧ (∀ s, (time.Parse time.layoutClock s).2 = true → isBetween2And4PM s = false)
      ∧ isBetween2And4PM "14:33" = true
      ∧ isBetween2And4PM "14:00" = true
      ∧ isBetween2And4PM "16:00" = false
      ∧ isBetween2And4PM "13:59" = false := by
  have hparse : ∀ s, isBetween2And4PM s = true
      ↔ (time.Parse time.layoutClock s).2 = false
        ∧ 14 ≤ (time.Parse time.layoutClock s).1.Hour
        ∧ (time.Parse time.layoutClock s).1.Hour < 16 := by
    intro s
    unfold isBetween2And4PM
    rcases hp : time.Parse time.layoutClock s with ⟨t, _ | _⟩
    · simp
    · simp
  refine ⟨fun s => ⟨clockString_of_isBetween2And4PM s, ?_⟩, hparse, fun h m hh hm hout => ?_,
    fun s hs => ?_, by decide, by decide, by decide, by decide⟩
  · rintro ⟨h, m, hh, hm, rfl⟩
    rw [isBetween2And4PM_clockString h m (by omega) hm]
    exact decide_eq_true (by omega)
  · rw [isBetween2And4PM_clockString h m hh hm]
    exact decide_eq_false (by omega)
  · cases hb : isBetween2And4PM s with
    | false => rfl
    | true =>
      have := ((hparse s).1 hb).1
      rw [hs] at this
      exact absurd this (by decide)

/-- C12 at the time `"14:33"`: it is the hour 14 and the minute 33, and
`isBetween2And4PM` is true of it. -/
theorem isBetween2And4PM_1433 :
    clockString 14 33 = "14:33" ∧ isBetween2And4PM (clockString 14 33) = true :=
  ⟨by decide, (isBetween2And4PM_iff.1 (clockString 14 33)).2 ⟨14, 33, Or.inl rfl, by decide, rfl⟩⟩

/-! ## The values `ParseFloat` returns are binary64 numbers -/

theorem lt_binaryExponent_succ (P q : Nat) :
    ∀ fuel k, P < q * 2 ^ (k + fuel + 1) → P < q * 2 ^ (binaryExponent P q fuel k + 1) := by
  intro fuel
  induction fuel with
  | zero => intro k h; simpa [binaryExponent] using h
  | succ fuel ih =>
    intro k h
    unfold binaryExponent
    by_cases ht : q * 2 ^ (k + 1) ≤ P
    · rw [if_pos ht]
      apply ih (k + 1)
      have e : k + 1 + fuel + 1 = k + (fuel + 1) + 1 := by omega
      rw [e]
      exact h
    · rw [if_neg ht]
      exact Nat.lt_of_not_le ht

/-- The rounded value is a significand of at most 53 bits times a power of
two. -/
theorem roundScaled_float {p q : Nat} (hq : 0 < q) :
    ∃ m w, m ≤ 2 ^ 53 ∧ roundScaled p q = m * 2 ^ w := by
  unfold roundScaled
  simp only []
  generalize p * 2 ^ 1074 = P
  have hmax : P < q * 2 ^ (binaryExponent P q P 0 + 1) := by
    apply lt_binaryExponent_succ
    have h1 : P < 2 ^ P := Nat.lt_two_pow _
    have h2 : 2 ^ P ≤ q * 2 ^ (0 + P + 1) := by
      rw [Nat.zero_add, Nat.pow_succ]
      calc 2 ^ P ≤ 2 ^ P * 2 := Nat.le_mul_of_pos_right _ (by decide)
        _ ≤ q * (2 ^ P * 2) := Nat.le_mul_of_pos_left _ hq
    exact Nat.lt_of_lt_of_le h1 h2
  generalize binaryExponent P q P 0 = e at hmax
  refine ⟨roundHalfEven P (q * 2 ^ (e - 52)), e - 52, ?_, rfl⟩
  apply roundHalfEven_le (Nat.mul_pos hq (Nat.pos_pow_of_pos _ (by decide)))
  have h3 : q * 2 ^ (e + 1) ≤ 2 ^ 53 * (q * 2 ^ (e - 52)) := by
    have h4 : (2 : Nat) ^ (e + 1) ≤ 2 ^ (53 + (e - 52)) :=
      Nat.pow_le_pow_right (by decide) (by omega)
    calc q * 2 ^ (e + 1) ≤ q * 2 ^ (53 + (e - 52)) := Nat.mul_le_mul_left _ h4
      _ = 2 ^ 53 * (q * 2 ^ (e - 52)) := by rw [Nat.pow_add]; ring
  exact Nat.le_of_lt (Nat.lt_of_lt_of_le hmax h3)

/-- The float64 values: a `fin n` is one when `|n|` is a significand of at
most 53 bits times a power of two. -/
theorem F64.round_float {neg : Bool} {p q : Nat} {n : Int} (hq : 0 < q)
    (h : F64.round neg p q = F64.fin n) : ∃ m w, m ≤ 2 ^ 53 ∧ n.natAbs = m * 2 ^ w := by
  unfold F64.round at h
  simp only [] at h
  split_ifs at h with h1 h2
  · have hn : n = -((roundScaled p q : Nat) : Int) := (F64.fin.inj h).symm
    rw [hn, Int.natAbs_neg, Int.natAbs_ofNat]
    exact roundScaled_float hq
  · have hn : n = ((roundScaled p q : Nat) : Int) := (F64.fin.inj h).symm
    rw [hn, Int.natAbs_ofNat]
    exact roundScaled_float hq

theorem specialInf_not_fin {neg : Bool} {k : Nat} {s : List Char} {v : F64} {c : Nat}
    (h : strconv.specialInf neg k s = some (v, c)) (n : Int) : v ≠ F64.fin n := by
  unfold strconv.specialInf at h
  simp only [] at h
  split_ifs at h <;>
  · have hv : v = F64.inf neg := by
      have := Option.some.inj h
      exact (congrArg Prod.fst this).symm
    rw [hv]
    exact fun hc => F64.noConfusion hc

theorem special_not_fin {s : List Char} {v : F64} {c : Nat}
    (h : strconv.special s = some (v, c)) (n : Int) : v ≠ F64.fin n := by
  unfold strconv.special at h
  split at h
  · exact absurd h (by simp)
  · split_ifs at h
    · exact specialInf_not_fin h n
    · exact specialInf_not_fin h n
    · have hv : v = F64.nan := by
        have := Option.some.inj h
        exact (congrArg Prod.fst this).symm
      rw [hv]
      exact fun hc => F64.noConfusion hc

theorem toF64_float {l : strconv.FloatLit} {n : Int} (h : l.toF64 = F64.fin n) :
    ∃ m w, m ≤ 2 ^ 53 ∧ n.natAbs = m * 2 ^ w := by
  unfold strconv.FloatLit.toF64 at h
  simp only [] at h
  split_ifs at h
  · exact F64.round_float (by decide) h
  · exact F64.round_float (by decide) h
  · exact F64.round_float (by positivity) h
  · exact F64.round_float (by positivity) h

theorem parseFloatPrefix_float {s : List Char} {n : Int}
    (h : (strconv.parseFloatPrefix s).1 = F64.fin n) :
    ∃ m w, m ≤ 2 ^ 53 ∧ n.natAbs = m * 2 ^ w := by
  unfold strconv.parseFloatPrefix at h
  split at h
  next v c hs => exact absurd h (special_not_fin hs n)
  next =>
    split at h
    next =>
      have hn : n = 0 := (F64.fin.inj h).symm
      exact ⟨0, 0, by positivity, by rw [hn]; rfl⟩
    next l rest hr =>
      split at h
      next neg hl => exact absurd h (fun hc => F64.noConfusion hc)
      next v hv => exact toF64_float h

/-- Every finite value `ParseFloat` returns is a binary64 number. -/
theorem ParseFloat_float {s : String} {n : Int} (h : (strconv.ParseFloat s).1 = F64.fin n) :
    ∃ m w, m ≤ 2 ^ 53 ∧ n.natAbs = m * 2 ^ w := by
  unfold strconv.ParseFloat at h
  split at h
  next f rest err heq =>
    split_ifs at h
    · have hn : n = 0 := (F64.fin.inj h).symm
      exact ⟨0, 0, by positivity, by rw [hn]; rfl⟩
    · have h1 : (strconv.parseFloatPrefix s.toList).1 = F64.fin n := by rw [heq]; exact h
      exact parseFloatPrefix_float h1

/-! ## The item rule on prices between -50 and 0 -/

theorem float_below_50 {n : Int} (hrep : ∃ m w, m ≤ 2 ^ 53 ∧ n.natAbs = m * 2 ^ w)
    (hlt : n.natAbs < 50 * 2 ^ 1074) : n.natAbs ≤ 7036874417766399 * 2 ^ 1027 := by
  obtain ⟨m, w, hm, hn⟩ := hrep
  have e50 : 50 * 2 ^ 1074 = 7036874417766400 * 2 ^ 1027 := by
    have : (2 : Nat) ^ 1074 = 2 ^ 47 * 2 ^ 1027 := by rw [← Nat.pow_add]
    have h47 : 50 * 2 ^ 47 = 7036874417766400 := by norm_num
    rw [this, ← Nat.mul_assoc, h47]
  rw [e50] at hlt
  have hpos : 0 < 2 ^ 1027 := Nat.pos_pow_of_pos _ (by decide)
  by_cases hw : 1027 ≤ w
  · obtain ⟨u, rfl⟩ := Nat.exists_eq_add_of_le hw
    have e : n.natAbs = (m * 2 ^ u) * 2 ^ 1027 := by rw [hn, Nat.pow_add]; ring
    rw [e] at hlt ⊢
    have h1 : m * 2 ^ u < 7036874417766400 := Nat.lt_of_mul_lt_mul_right hlt
    exact Nat.mul_le_mul_right _ (by omega)
  · have h1 : (2 : Nat) ^ w ≤ 2 ^ 1026 := Nat.pow_le_pow_right (by decide) (by omega)
    calc n.natAbs = m * 2 ^ w := hn
      _ ≤ 2 ^ 53 * 2 ^ 1026 := Nat.mul_le_mul hm h1
      _ = 2 ^ 52 * 2 ^ 1027 := by rw [← Nat.pow_add, ← Nat.pow_add]
      _ ≤ 7036874417766399 * 2 ^ 1027 := Nat.mul_le_mul_right _ (by norm_num)

theorem mul_c0_02_negative {n : Int} (hneg : n < 0) (hgt : -50 * F64.one < n)
    (hrep : ∃ m w, m ≤ 2 ^ 53 ∧ n.natAbs = m * 2 ^ w) :
    ∃ n', F64.mul (F64.fin n) F64.c0_02 = F64.fin n' ∧ -F64.one < n' ∧ n' ≤ 0 := by
  have hc : ((5764607523034235 : Int) * 2 ^ 1016).natAbs = 5764607523034235 * 2 ^ 1016 := by
    have h5 : (5764607523034235 : Int).natAbs = 5764607523034235 := rfl
    have h2 : (2 : Int).natAbs = 2 := rfl
    rw [Int.natAbs_mul, Int.natAbs_pow, h5, h2]
  have hcpos : decide ((5764607523034235 : Int) * 2 ^ 1016 < 0) = false := by
    have : (0 : Int) < 2 ^ 1016 := pow_pos (by decide) 1016
    exact decide_eq_false (by omega)
  have hn : decide (n < 0) = true := decide_eq_true hneg
  have hlt : n.natAbs < 50 * 2 ^ 1074 := by
    rw [F64.one_eq_cast] at hgt
    have h2 : ((n.natAbs : Nat) : Int) < ((50 * 2 ^ 1074 : Nat) : Int) := by
      rw [Nat.cast_mul]
      have : (n.natAbs : Int) = -n := by omega
      rw [this]
      have h50 : ((50 : Nat) : Int) = 50 := rfl
      rw [h50]
      omega
    exact Int.ofNat_lt.1 h2
  have hA := float_below_50 hrep hlt
  have hle : n.natAbs * (5764607523034235 * 2 ^ 1016) * 2 ^ 1074
      ≤ 9007199254740991 * 2 ^ 1021 * 2 ^ 2148 := by
    have e1 : (2 : Nat) ^ 2148 = 2 ^ 52 * 2 ^ 2096 := by rw [← Nat.pow_add]
    have e2 : (2 : Nat) ^ 2096 * 2 ^ 1021 = 2 ^ 1027 * 2 ^ 1016 * 2 ^ 1074 := by
      rw [← Nat.pow_add, ← Nat.pow_add, ← Nat.pow_add]
    have e3 : 7036874417766399 * 5764607523034235 ≤ 9007199254740991 * 2 ^ 52 := by norm_num
    calc n.natAbs * (5764607523034235 * 2 ^ 1016) * 2 ^ 1074
        ≤ (7036874417766399 * 2 ^ 1027) * (5764607523034235 * 2 ^ 1016) * 2 ^ 1074 :=
          Nat.mul_le_mul_right _ (Nat.mul_le_mul_right _ hA)
      _ = (7036874417766399 * 5764607523034235) * (2 ^ 1027 * 2 ^ 1016 * 2 ^ 1074) := by ring
      _ ≤ (9007199254740991 * 2 ^ 52) * (2 ^ 1027 * 2 ^ 1016 * 2 ^ 1074) :=
          Nat.mul_le_mul_right _ e3
      _ = 9007199254740991 * 2 ^ 1021 * 2 ^ 2148 := by rw [e1, ← e2]; ring
  have hr := roundScaled_le (m := 9007199254740991) (w := 1021) (by positivity) (by norm_num) hle
  have hsmall : 9007199254740991 * 2 ^ 1021 < 2 ^ 1074 := by
    have : (2 : Nat) ^ 1074 = 2 ^ 53 * 2 ^ 1021 := by rw [← Nat.pow_add]
    rw [this]
    exact Nat.mul_lt_mul_of_pos_right (by norm_num) (Nat.pos_pow_of_pos _ (by decide))
  have hlt2 : ¬ 2 ^ 2098 ≤ roundScaled (n.natAbs * (5764607523034235 * 2 ^ 1016)) (2 ^ 2148) := by
    have : (2 : Nat) ^ 1074 < 2 ^ 2098 := Nat.pow_lt_pow_right (by decide) (by decide)
    omega
  refine ⟨-((roundScaled (n.natAbs * (5764607523034235 * 2 ^ 1016)) (2 ^ 2148) : Nat) : Int), ?_,
    ?_, ?_⟩
  · unfold F64.c0_02
    simp only [F64.mul, F64.round, hc, hcpos, hn, if_neg hlt2]
    rfl
  · rw [F64.one_eq_cast]
    have h3 : roundScaled (n.natAbs * (5764607523034235 * 2 ^ 1016)) (2 ^ 2148) < 2 ^ 1074 :=
      Nat.lt_of_le_of_lt hr hsmall
    have := Int.ofNat_lt.2 h3
    omega
  · have := Int.ofNat_nonneg (roundScaled (n.natAbs * (5764607523034235 * 2 ^ 1016)) (2 ^ 2148))
    omega

theorem ceil_toInt_zero {n : Int} (h1 : -F64.one < n) (h2 : n ≤ 0) :
    F64.toInt (math.Ceil (F64.fin n)) = 0 := by
  have hz : (-n) / F64.one = 0 := Int.ediv_eq_zero_of_lt (by omega) (by omega)
  simp only [math.Ceil, hz]
  have h0 : inInt64 0 := by decide
  have := F64.toInt_whole h0
  simpa using this

theorem itemPoints_bounds_above_minus_50 {item : Items}
    (h : F64.gtLe (-50) (10 ^ 9) (strconv.ParseFloat item.Price).1
      ∨ Int.tmod (len (strings.TrimSpace item.ShortDescription)) 3 ≠ 0) :
    0 ≤ itemPoints item ∧ itemPoints item ≤ 2 ^ 25 := by
  unfold itemPoints
  split_ifs with hlen
  · rcases h with h | h
    · cases hp : (strconv.ParseFloat item.Price).1 with
      | fin n =>
        rw [hp] at h
        simp only [F64.gtLe] at h
        by_cases hn : 0 ≤ n
        · obtain ⟨n', hmul, h0, h1⟩ := mul_c0_02_bounds hn h.2
          rw [hmul]
          exact ceil_toInt_bounds h0 h1 (by decide)
        · obtain ⟨n', hmul, h0, h1⟩ := mul_c0_02_negative (by omega) h.1 (ParseFloat_float hp)
          rw [hmul, ceil_toInt_zero h0 h1]
          exact ⟨by decide, by decide⟩
      | inf neg => rw [hp] at h; exact absurd h (by simp [F64.gtLe])
      | nan => rw [hp] at h; exact absurd h (by simp [F64.gtLe])
    · exact absurd hlen h
  · exact ⟨by decide, by decide⟩

theorem sum_bounds_of_pointwise (items : List Items)
    (h : ∀ item ∈ items, 0 ≤ itemPoints item ∧ itemPoints item ≤ 2 ^ 25) :
    0 ≤ (items.map itemPoints).sum ∧ (items.map itemPoints).sum ≤ 2 ^ 25 * (items.length : Int) := by
  induction items with
  | nil => simp
  | cons it rest ih =>
    have hi := h it (List.mem_cons_self _ _)
    have hr := ih (fun item hm => h item (List.mem_cons_of_mem _ hm))
    simp only [List.map_cons, List.sum_cons, List.length_cons]
    push_cast
    constructor <;> omega

/-- C20, as stated, fails: both prices of `hugePricesReceipt` parse without
error to the finite number `4e20`, far above -50, and each item earns
`8000000000000000000`; the sum of the two does not fit an `int` and wraps to
`-2446744073709551616`, so that the item rule and the score are negative. -/
theorem huge_prices_score_negative :
    (∀ item ∈ hugePricesReceipt.Items,
        (strconv.ParseFloat item.Price).2 = none
          ∧ F64.gtLe (-50) (10 ^ 21) (strconv.ParseFloat item.Price).1)
      ∧ calculateItemDescription [⟨"abc", "4e20"⟩] = 8000000000000000000
      ∧ calculateItemDescription hugePricesReceipt.Items = -2446744073709551616
      ∧ ¬ ∃ tab, 0 ≤ calculatePoints tab hugePricesReceipt := by
  refine ⟨by decide!, by decide!, by decide!, ?_⟩
  rintro ⟨tab, h⟩
  rw [calculatePoints_eq_wrap] at h
  have h0 : addRetailerPoints tab "" = 0 := rfl
  simp only [rulesSum, hugePricesReceipt, h0] at h
  revert h
  decide!

/-- C20, amended: in a receipt with fewer than `2^32` items and a retailer
name of fewer than `2^32` runes, let every item either have a price that
parses to a number above -50 and at most `10^9` (a price with a syntax error
parses to 0) or have a trimmed description whose length is not divisible by 3.
Then `calculateItemDescription` and `calculatePoints` are not negative. So in
a receipt of these sizes a negative score takes an item whose description
length is divisible by 3 and whose price is -50 or below, or above `10^9`, or
not finite. -/
theorem calculatePoints_nonneg_above_minus_50 (tab : unicode.Tables) (r : Receipt)
    (hitems : r.Items.length < 2 ^ 32) (hname : r.Retailer.length < 2 ^ 32)
    (hprice : ∀ item ∈ r.Items,
      F64.gtLe (-50) (10 ^ 9) (strconv.ParseFloat item.Price).1
        ∨ Int.tmod (len (strings.TrimSpace item.ShortDescription)) 3 ≠ 0) :
    0 ≤ calculateItemDescription r.Items ∧ 0 ≤ calculatePoints tab r := by
  have hs := sum_bounds_of_pointwise r.Items
    (fun item hm => itemPoints_bounds_above_minus_50 (hprice item hm))
  have hd : calculateItemDescription r.Items = (r.Items.map itemPoints).sum := by
    rw [calculateItemDescription_eq_wrap]
    apply wrapInt64_of_inInt64
    unfold inInt64
    constructor <;> omega
  have ha := addRetailerPoints_bounds tab r.Retailer
  have hsum : 0 ≤ rulesSum tab r ∧ rulesSum tab r < 2 ^ 63 := by
    unfold rulesSum
    simp only []
    rw [hd]
    constructor <;> split_ifs <;> omega
  refine ⟨by rw [hd]; exact hs.1, ?_⟩
  rw [calculatePoints_eq_wrap, wrapInt64_of_inInt64 ⟨by omega, hsum.2⟩]
  exact hsum.1

/-- C20, amended, at `discountReceipt`, which has a line priced `-49.99`: its
hypotheses hold, its item rule gives 1 and its score is never negative; and
the bound -50 is the right one, since an item priced `-50` earns -1. -/
theorem calculatePoints_nonneg_discount :
    discountReceipt.Items.length < 2 ^ 32 ∧ discountReceipt.Retailer.length < 2 ^ 32
      ∧ (∀ item ∈ discountReceipt.Items,
          F64.gtLe (-50) (10 ^ 9) (strconv.ParseFloat item.Price).1
            ∨ Int.tmod (len (strings.TrimSpace item.ShortDescription)) 3 ≠ 0)
      ∧ calculateItemDescription discountReceipt.Items = 1
      ∧ (¬ ∃ tab, calculatePoints tab discountReceipt < 0)
      ∧ calculateItemDescription [⟨"abc", "-50"⟩] = -1 := by
  refine ⟨by decide, by decide, by decide!, by decide!, ?_, by decide!⟩
  rintro ⟨tab, h⟩
  have := (calculatePoints_nonneg_above_minus_50 tab discountReceipt (by decide) (by decide)
    (by decide!)).2
  omega
